import Mathlib

/-!
Verification development for the online-judge api-client services
(`onlinejudge/service/anarchygolf.py`, `aoj.py`, `codeforces.py`,
`hackerrank.py`).  Python strings and byte strings are embedded as
`List Char`; the URL-parsing helpers of `urllib.parse` that the services
call are embedded at the same granularity.  Helper modules of the
repository that are not part of the given sources
(`onlinejudge._implementation.utils`, `testcase_zipper`) are modelled
from the specification and marked as such in their doc comments.
-/

/-- Python strings (and byte strings) are embedded as lists of characters. -/
abbrev Str := List Char

/-- Coercion from Lean string literals to the embedding type. -/
def str (s : String) : Str := s.data

/-- Splits a list at the first occurrence of `c`: returns the part before it
and, when `c` occurs, the part after it. -/
def breakAt (c : Char) : Str → Str × Option Str
  | [] => ([], none)
  | a :: l =>
    if a = c then ([], some l)
    else
      let r := breakAt c l
      (a :: r.1, r.2)

theorem breakAt_not_mem {c : Char} {l : Str} (h : c ∉ l) : breakAt c l = (l, none) := by
  induction l with
  | nil => rfl
  | cons a l ih =>
    simp only [List.mem_cons, not_or] at h
    simp [breakAt, Ne.symm h.1, ih h.2]

theorem breakAt_append {c : Char} {xs ys : Str} (h : c ∉ xs) :
    breakAt c (xs ++ c :: ys) = (xs, some ys) := by
  induction xs with
  | nil => simp [breakAt]
  | cons a xs ih =>
    simp only [List.mem_cons, not_or] at h
    simp [breakAt, Ne.symm h.1, ih h.2]

/-- Takes characters while none of them belongs to `stops`; returns the taken
part and the rest.  Used for the netloc extraction of `urllib.parse`. -/
def spanNotIn (stops : Str) : Str → Str × Str
  | [] => ([], [])
  | a :: l =>
    if a ∈ stops then ([], a :: l)
    else
      let r := spanNotIn stops l
      (a :: r.1, r.2)

theorem spanNotIn_all {stops : Str} {l : Str} (h : ∀ a ∈ l, a ∉ stops) :
    spanNotIn stops l = (l, []) := by
  induction l with
  | nil => rfl
  | cons a l ih =>
    have ha := h a (by simp)
    simp [spanNotIn, ha, ih fun b hb => h b (by simp [hb])]

theorem spanNotIn_append {stops : Str} {xs : Str} {b : Char} {ys : Str}
    (h : ∀ a ∈ xs, a ∉ stops) (hb : b ∈ stops) :
    spanNotIn stops (xs ++ b :: ys) = (xs, b :: ys) := by
  induction xs with
  | nil => simp [spanNotIn, hb]
  | cons a xs ih =>
    have ha := h a (by simp)
    simp [spanNotIn, ha, ih fun x hx => h x (by simp [hx])]

/-- Splits a list on every occurrence of `sep` (Python `str.split(sep)`). -/
def splitAll (sep : Char) : Str → List Str
  | [] => [[]]
  | c :: cs =>
    if c = sep then [] :: splitAll sep cs
    else
      match splitAll sep cs with
      | s :: ss => (c :: s) :: ss
      | [] => [[c]]

theorem splitAll_ne_nil (sep : Char) (l : Str) : splitAll sep l ≠ [] := by
  induction l with
  | nil => simp [splitAll]
  | cons c cs ih =>
    by_cases h : c = sep
    · simp [splitAll, h]
    · simp only [splitAll, if_neg h]
      match hm : splitAll sep cs with
      | s :: ss => simp
      | [] => exact absurd hm ih

theorem splitAll_not_mem {sep : Char} {l : Str} (h : sep ∉ l) : splitAll sep l = [l] := by
  induction l with
  | nil => rfl
  | cons c cs ih =>
    simp only [List.mem_cons, not_or] at h
    simp [splitAll, Ne.symm h.1, ih h.2]

theorem splitAll_append {sep : Char} {xs ys : Str} (h : sep ∉ xs) :
    splitAll sep (xs ++ sep :: ys) = xs :: splitAll sep ys := by
  induction xs with
  | nil => simp [splitAll]
  | cons c cs ih =>
    simp only [List.mem_cons, not_or] at h
    have h2 := ih h.2
    show splitAll sep (c :: (cs ++ sep :: ys)) = (c :: cs) :: splitAll sep ys
    simp only [splitAll, if_neg (Ne.symm h.1)]
    rw [h2]

/-- Matches a literal pattern at the front of a list; on success returns the
remaining characters (the embedding of a regex literal / `str.startswith`). -/
def matchLead : Str → Str → Option Str
  | [], rest => some rest
  | _ :: _, [] => none
  | p :: ps, c :: cs => if p = c then matchLead ps cs else none

theorem matchLead_append (p rest : Str) : matchLead p (p ++ rest) = some rest := by
  induction p with
  | nil => rfl
  | cons a ps ih => simp [matchLead, ih]

theorem matchLead_eq_some {p s rest : Str} (h : matchLead p s = some rest) :
    s = p ++ rest := by
  induction p generalizing s with
  | nil =>
    simp only [matchLead, Option.some.injEq] at h
    simp [h]
  | cons a ps ih =>
    match s with
    | [] => simp [matchLead] at h
    | c :: cs =>
      by_cases hac : a = c
      · subst hac
        simp only [matchLead, if_pos rfl] at h
        simp [ih h]
      · simp [matchLead, hac] at h

/-- Python's substring containment test `needle in hay`. -/
def isSub (needle : Str) : Str → Bool
  | [] => (matchLead needle []).isSome
  | c :: t => (matchLead needle (c :: t)).isSome || isSub needle t

theorem isSub_decomp {needle hay : Str} (h : isSub needle hay = true) :
    ∃ pre post, hay = pre ++ needle ++ post := by
  induction hay with
  | nil =>
    simp only [isSub, Option.isSome_iff_exists] at h
    obtain ⟨rest, hr⟩ := h
    have := matchLead_eq_some hr
    exact ⟨[], rest, this⟩
  | cons c t ih =>
    simp only [isSub, Bool.or_eq_true, Option.isSome_iff_exists] at h
    rcases h with ⟨rest, hr⟩ | h
    · exact ⟨[], rest, matchLead_eq_some hr⟩
    · obtain ⟨pre, post, hp⟩ := ih h
      exact ⟨c :: pre, post, by simp [hp]⟩

/-- One step of decimal accumulation. -/
def digitStep (acc : Nat) (c : Char) : Nat := acc * 10 + (c.toNat - 48)

/-- Parses a run of decimal digits (the embedding of Python `int()` applied
to a digit string). -/
def charsToNat (s : Str) : Nat := s.foldl digitStep 0

/-- The decimal digit characters. -/
def decChar : Nat → Char
  | 0 => '0' | 1 => '1' | 2 => '2' | 3 => '3' | 4 => '4'
  | 5 => '5' | 6 => '6' | 7 => '7' | 8 => '8' | _ => '9'

theorem decChar_isDigit {d : Nat} (h : d < 10) : (decChar d).isDigit = true := by
  interval_cases d <;> decide

theorem decChar_toNat {d : Nat} (h : d < 10) : (decChar d).toNat - 48 = d := by
  interval_cases d <;> decide

/-- Decimal rendering of a natural number (the embedding of Python
`str(n)` for nonnegative `n`), defined with an explicit fuel argument so
that it is structurally recursive. -/
def toDecAux : Nat → Nat → Str → Str
  | 0, _, acc => acc
  | f + 1, n, acc =>
    if n < 10 then decChar n :: acc
    else toDecAux f (n / 10) (decChar (n % 10) :: acc)

def natToChars (n : Nat) : Str := toDecAux (n + 1) n []

/-- Decimal rendering of a Python integer, including the sign. -/
def intToChars (i : Int) : Str :=
  if i < 0 then '-' :: natToChars i.natAbs else natToChars i.toNat

theorem toDecAux_eq_digits {f : Nat} :
    ∀ {n : Nat} (acc : Str), 0 < n → n < 10 ^ f →
      toDecAux f n acc = ((Nat.digits 10 n).reverse.map decChar) ++ acc := by
  induction f with
  | zero => intro n acc h1 h2; omega
  | succ f ih =>
    intro n acc h1 h2
    by_cases h10 : n < 10
    · have hd : Nat.digits 10 n = [n] := by
        rw [Nat.digits_def' (by norm_num : 1 < 10) h1]
        have : n / 10 = 0 := Nat.div_eq_of_lt h10
        simp [this, Nat.mod_eq_of_lt h10]
      simp [toDecAux, h10, hd]
    · push_neg at h10
      have hpos : 0 < n / 10 := Nat.div_pos h10 (by norm_num)
      have hlt : n / 10 < 10 ^ f := by
        rw [Nat.div_lt_iff_lt_mul (by norm_num : 0 < 10)]
        calc n < 10 ^ (f + 1) := h2
        _ = 10 ^ f * 10 := by ring
      have hd : Nat.digits 10 n = n % 10 :: Nat.digits 10 (n / 10) :=
        Nat.digits_def' (by norm_num : 1 < 10) h1
      simp only [toDecAux, if_neg (by omega : ¬ n < 10)]
      rw [ih (decChar (n % 10) :: acc) hpos hlt, hd]
      simp

theorem natToChars_eq_digits {n : Nat} (h : 0 < n) :
    natToChars n = (Nat.digits 10 n).reverse.map decChar := by
  have hf : n < 10 ^ (n + 1) := by
    calc n < n + 1 := Nat.lt_succ_self n
    _ ≤ 10 ^ (n + 1) := Nat.lt_pow_self (by norm_num) (n + 1) |>.le
  rw [natToChars, toDecAux_eq_digits _ h hf, List.append_nil]

theorem foldl_digits (ds : List Nat) (hds : ∀ d ∈ ds, d < 10) (v : Nat) :
    (ds.reverse.map decChar).foldl digitStep v = v * 10 ^ ds.length + Nat.ofDigits 10 ds := by
  induction ds generalizing v with
  | nil => simp [Nat.ofDigits_nil]
  | cons d ds ih =>
    have hd : d < 10 := hds d (by simp)
    have hrec : ∀ x ∈ ds, x < 10 := fun x hx => hds x (by simp [hx])
    simp only [List.reverse_cons, List.map_append, List.map_cons, List.map_nil,
      List.foldl_append, List.foldl_cons, List.foldl_nil]
    rw [ih hrec]
    simp only [digitStep, Nat.ofDigits_cons, decChar_toNat hd, List.length_cons]
    ring

theorem charsToNat_natToChars (n : Nat) : charsToNat (natToChars n) = n := by
  by_cases h : 0 < n
  · rw [charsToNat, natToChars_eq_digits h,
      foldl_digits _ (fun d hd => Nat.digits_lt_base (by norm_num) hd) 0]
    simp [Nat.ofDigits_digits]
  · have : n = 0 := by omega
    subst this; rfl

theorem natToChars_all_digit (n : Nat) : ∀ c ∈ natToChars n, c.isDigit = true := by
  by_cases h : 0 < n
  · rw [natToChars_eq_digits h]
    intro c hc
    simp only [List.mem_map, List.mem_reverse] at hc
    obtain ⟨d, hd, rfl⟩ := hc
    exact decChar_isDigit (Nat.digits_lt_base (by norm_num) hd)
  · have : n = 0 := by omega
    subst this; decide

theorem natToChars_ne_nil (n : Nat) : natToChars n ≠ [] := by
  by_cases h : 0 < n
  · rw [natToChars_eq_digits h]
    have := Nat.digits_ne_nil_iff_ne_zero (b := 10) (n := n) |>.mpr (by omega)
    simp [this]
  · have : n = 0 := by omega
    subst this; decide

theorem digit_not_special {c : Char} (h : c.isDigit = true) :
    c ≠ '/' ∧ c ≠ '#' ∧ c ≠ '?' ∧ c ≠ ':' ∧ c ≠ '&' ∧ c ≠ '=' ∧ c ≠ '+' ∧ c ≠ '%' ∧ c ≠ '.' := by
  simp only [Char.isDigit] at h
  refine ⟨?_, ?_, ?_, ?_, ?_, ?_, ?_, ?_, ?_⟩ <;>
    (rintro rfl; revert h; decide)

/-- The result quintuple of `urllib.parse.urlparse` (the `params` component,
irrelevant to these services, is omitted). -/
structure UrlParts where
  scheme : Str
  netloc : Str
  path : Str
  query : Str
  fragment : Str
deriving DecidableEq, Repr

/-- Characters allowed in a URL scheme by `urllib.parse`. -/
def schemeChar (c : Char) : Bool := c.isAlphanum || c = '+' || c = '-' || c = '.'

def isValidScheme : Str → Bool
  | [] => false
  | c :: cs => c.isAlpha && (c :: cs).all schemeChar

/-- Splits off `scheme:` from the front of a URL as `urllib.parse` does;
when no valid scheme is present the URL is returned unchanged. -/
def splitScheme (url : Str) : Str × Str :=
  match breakAt ':' url with
  | (pre, some rest) =>
    if isValidScheme pre then (pre.map Char.toLower, rest) else ([], url)
  | (_, none) => ([], url)

/-- Splits off the network location after a leading `//` as `urllib.parse`
does: the netloc extends to the first `/`, `?` or `#`. -/
def splitNetloc : Str → Str × Str
  | '/' :: '/' :: rest => spanNotIn (str "/?#") rest
  | u => ([], u)

/-- The embedding of `urllib.parse.urlparse`: scheme, then netloc, then the
fragment split at the first `#`, then the query split at the first `?`. -/
def urlparse (url : Str) : UrlParts :=
  let s1 := splitScheme url
  let s2 := splitNetloc s1.2
  let s3 := match breakAt '#' s2.2 with
    | (pre, some frag) => (pre, frag)
    | (pre, none) => (pre, [])
  let s4 := match breakAt '?' s3.1 with
    | (pre, some q) => (pre, q)
    | (pre, none) => (pre, [])
  ⟨s1.1, s2.1, s4.1, s4.2, s3.2⟩

/-- Keeps the path segments that survive normalization (drops empty
segments and single dots). -/
def keepSeg (s : Str) : Bool := decide (s ≠ [] ∧ s ≠ str ".")

/-- Resolves `..` segments against a stack of already-accepted segments. -/
def doDots (isAbs : Bool) : List Str → List Str → List Str
  | stack, [] => stack.reverse
  | stack, s :: rest =>
    if s = str ".." then
      match stack with
      | [] => if isAbs then doDots isAbs [] rest else doDots isAbs [s] rest
      | t :: stack2 =>
        if t = str ".." then doDots isAbs (s :: t :: stack2) rest
        else doDots isAbs stack2 rest
    else doDots isAbs (s :: stack) rest

def joinSegs : List Str → Str
  | [] => []
  | [s] => s
  | s :: ss => s ++ '/' :: joinSegs ss

/-- Modelled from the spec: `utils.normpath` of the repository's missing
`onlinejudge._implementation.utils` module, the POSIX path normalization
applied to URL paths before shape matching.  It collapses duplicate
slashes, `.` and `..` segments and trailing slashes, and is the identity
on already-normalized paths. -/
def normpath (p : Str) : Str :=
  if p = [] then str "." else
  let isAbs := decide (p.head? = some '/')
  let comps := doDots isAbs [] ((splitAll '/' p).filter keepSeg)
  if isAbs then '/' :: joinSegs comps
  else if comps = [] then str "." else joinSegs comps

theorem doDots_no_dots {l : List Str} (hl : ∀ s ∈ l, s ≠ str "..") :
    ∀ (ab : Bool) (st : List Str), doDots ab st l = st.reverse ++ l := by
  induction l with
  | nil => intro ab st; simp [doDots]
  | cons s rest ih =>
    intro ab st
    have hs : s ≠ str ".." := hl s (by simp)
    have hrest : ∀ x ∈ rest, x ≠ str ".." := fun x hx => hl x (by simp [hx])
    simp only [doDots, if_neg hs]
    rw [ih hrest ab (s :: st)]
    simp

theorem normpath_abs_eq {p : Str} {segs : List Str} (hh : p.head? = some '/')
    (hsegs : (splitAll '/' p).filter keepSeg = segs)
    (hdots : ∀ s ∈ segs, s ≠ str "..") :
    normpath p = '/' :: joinSegs segs := by
  have hne : p ≠ [] := by cases p <;> simp_all
  have habs : decide (p.head? = some '/') = true := by simp [hh]
  rw [normpath, if_neg hne]
  simp only [habs, hsegs, if_true]
  rw [doDots_no_dots hdots true []]
  simp

/-- Decodes `+` and percent escapes (an ASCII-level embedding of
`urllib.parse.unquote_plus` as used by `parse_qs`). -/
def hexVal (c : Char) : Option Nat :=
  if c.isDigit then some (c.toNat - 48)
  else if 'a' ≤ c ∧ c ≤ 'f' then some (c.toNat - 87)
  else if 'A' ≤ c ∧ c ≤ 'F' then some (c.toNat - 55)
  else none

def plusToSpace (s : Str) : Str := s.map (fun c => if c = '+' then ' ' else c)

def unquote : Str → Str
  | [] => []
  | c :: rest =>
    if c = '%' then
      match rest with
      | [] => ['%']
      | [a] => ['%', a]
      | a :: b :: rest2 =>
        match hexVal a, hexVal b with
        | some x, some y => Char.ofNat (16 * x + y) :: unquote rest2
        | _, _ => '%' :: a :: unquote (b :: rest2)
    else c :: unquote rest

def unquote_plus (s : Str) : Str := unquote (plusToSpace s)

theorem unquote_cons_ne {c : Char} (hc : c ≠ '%') (rest : Str) :
    unquote (c :: rest) = c :: unquote rest := by
  rw [unquote.eq_def]
  simp [hc]

theorem unquote_id {s : Str} (h2 : '%' ∉ s) : unquote s = s := by
  induction s with
  | nil => rfl
  | cons c rest ih =>
    simp only [List.mem_cons, not_or] at h2
    rw [unquote_cons_ne (Ne.symm h2.1), ih h2.2]

theorem plusToSpace_id {s : Str} (h : '+' ∉ s) : plusToSpace s = s := by
  induction s with
  | nil => rfl
  | cons c rest ih =>
    simp only [List.mem_cons, not_or] at h
    have hrest := ih h.2
    simp only [plusToSpace, List.map_cons] at hrest ⊢
    simp [Ne.symm h.1, hrest]

theorem unquote_plus_id {s : Str} (h : '+' ∉ s) (h2 : '%' ∉ s) : unquote_plus s = s := by
  rw [unquote_plus, plusToSpace_id h, unquote_id h2]

/-- The embedding of `urllib.parse.parse_qsl` with default options: fields
are split on `&`, pairs on the first `=`; empty fields, fields without `=`
and blank values are skipped; names and values are unquoted. -/
def parse_qsl (qs : Str) : List (Str × Str) :=
  (splitAll '&' qs).foldr
    (fun field acc =>
      if field = [] then acc
      else
        match breakAt '=' field with
        | (_, none) => acc
        | (name, some value) =>
          if value = [] then acc
          else (unquote_plus name, unquote_plus value) :: acc)
    []

def addPair (m : List (Str × List Str)) (kv : Str × Str) : List (Str × List Str) :=
  match m with
  | [] => [(kv.1, [kv.2])]
  | (k, vs) :: rest =>
    if k = kv.1 then (k, vs ++ [kv.2]) :: rest else (k, vs) :: addPair rest kv

/-- The embedding of `urllib.parse.parse_qs`: groups the pairs of
`parse_qsl` by name, preserving order of first occurrence. -/
def parse_qs (qs : Str) : List (Str × List Str) := (parse_qsl qs).foldl addPair []

/-- Python `dict.get` on the result of `parse_qs`. -/
def qsGet (m : List (Str × List Str)) (k : Str) : Option (List Str) :=
  (m.find? (fun p => p.1 == k)).map (·.2)

/-- Python whitespace as used by `str.strip` and friends. -/
def pyWhite (c : Char) : Bool :=
  c.toNat = 32 || c.toNat = 9 || c.toNat = 10 || c.toNat = 13 || c.toNat = 11 || c.toNat = 12

/-- Python `str.lstrip()`. -/
def lstrip (s : Str) : Str := s.dropWhile pyWhite

/-- Python `str.strip()`. -/
def strip (s : Str) : Str := ((lstrip s).reverse.dropWhile pyWhite).reverse

/-- Modelled from the spec: `utils.dos2unix` of the missing
`onlinejudge._implementation.utils` module, the newline normalization
replacing CRLF by LF. -/
def dos2unix : Str → Str
  | [] => []
  | '\r' :: '\n' :: rest => '\n' :: dos2unix rest
  | c :: rest => c :: dos2unix rest

/-- Modelled from the spec: `utils.textfile` of the missing
`onlinejudge._implementation.utils` module, the newline normalization
ensuring that a nonempty text ends with a final newline. -/
def textfile (s : Str) : Str :=
  if s.getLast? = some '\n' then s else s ++ ['\n']

/-- The embedding of `onlinejudge.type.TestCase` (a named tuple); byte
strings are embedded as `Str`. -/
structure TestCase where
  name : Str
  input_name : Str
  input_data : Str
  output_name : Str
  output_data : Str
deriving DecidableEq, Repr

/-- The exceptions that can escape the embedded operations.  The first
group embeds the error taxonomy of `onlinejudge.type`; `HTTPError` and
`IOError` embed transport failures raised by the `requests` collaborator;
the last three embed plain Python runtime errors. -/
inductive PyErr where
  | NotLoggedInError : PyErr
  | SubmissionError : PyErr
  | SampleParseError : Str → PyErr
  | HTTPError : Nat → PyErr
  | IOError : Nat → PyErr
  | UnboundLocalError : PyErr
  | AttributeError : PyErr
  | TypeError : PyErr
deriving DecidableEq, Repr

/-- One classified fragment inside the zipper: optional explicit index,
raw label, raw content and document position. -/
structure ZFrag where
  index : Option Nat
  label : Str
  content : Str
  pos : Nat
deriving DecidableEq, Repr

/-- Modelled from the spec: the `SampleZipper` state of the missing
`onlinejudge._implementation.testcase_zipper` module — two ordered queues
of classified fragments plus a position counter. -/
structure SampleZipper where
  ins : List ZFrag
  outs : List ZFrag
  cnt : Nat
deriving DecidableEq, Repr

def SampleZipper.empty : SampleZipper := ⟨[], [], 0⟩

/-- Modelled from the spec: the configurable input/output marker phrases
(covering localized variants) against which labels are matched
case-insensitively. -/
def inputMarkers : List Str := [str "input", str "入力"]

def outputMarkers : List Str := [str "output", str "出力"]

def toLowerStr (s : Str) : Str := s.map Char.toLower

def hasMarker (markers : List Str) (label : Str) : Bool :=
  markers.any fun m => isSub m (toLowerStr label)

/-- Modelled from the spec: the explicit index of a label is the first
contiguous run of digits, when present. -/
def firstDigitRun (s : Str) : Option Nat :=
  let t := (s.dropWhile fun c => !c.isDigit).takeWhile Char.isDigit
  if t = [] then none else some (charsToNat t)

/-- Modelled from the spec: `SampleZipper.add(content, name)` classifies the
label against the marker phrases and appends the fragment to the matching
direction's queue in document order; unrecognized labels are dropped with
a warning. -/
def SampleZipper.add (z : SampleZipper) (content : Str) (label : Str) : SampleZipper :=
  if hasMarker inputMarkers label then
    { z with ins := z.ins ++ [⟨firstDigitRun label, label, content, z.cnt⟩], cnt := z.cnt + 1 }
  else if hasMarker outputMarkers label then
    { z with outs := z.outs ++ [⟨firstDigitRun label, label, content, z.cnt⟩], cnt := z.cnt + 1 }
  else z

/-- Keeps the first fragment carrying each explicit index and drops (with
a warning) later duplicates; index-less fragments are all kept. -/
def dedupIdx (seen : List Nat) : List ZFrag → List ZFrag
  | [] => []
  | f :: fs =>
    match f.index with
    | none => f :: dedupIdx seen fs
    | some i => if i ∈ seen then dedupIdx seen fs else f :: dedupIdx (i :: seen) fs

def insNat (n : Nat) : List Nat → List Nat
  | [] => [n]
  | m :: ms => if n ≤ m then n :: m :: ms else m :: insNat n ms

def sortNat (l : List Nat) : List Nat := l.foldr insNat []

def hasIdx (i : Nat) (f : ZFrag) : Bool := f.index == some i

/-- Sequentially numbered positional pairs, starting at `k`. -/
def numberFrom (k : Nat) : List (ZFrag × ZFrag) → List TestCase
  | [] => []
  | p :: ps =>
    TestCase.mk (natToChars k) p.1.label p.1.content p.2.label p.2.content :: numberFrom (k + 1) ps

/-- Modelled from the spec: `SampleZipper.get()` — fragments with equal
explicit indices present on both sides pair first, in ascending index
order and named by the shared index; the remaining fragments pair
positionally with synthetic sequential names; leftovers are dropped with
a warning. -/
def SampleZipper.get (z : SampleZipper) : List TestCase :=
  let dIns := dedupIdx [] z.ins
  let dOuts := dedupIdx [] z.outs
  let common := sortNat ((dIns.filterMap fun f => f.index).filter fun i => dOuts.any (hasIdx i))
  let matched := common.filterMap fun i =>
    match dIns.find? (hasIdx i), dOuts.find? (hasIdx i) with
    | some a, some b => some (TestCase.mk (natToChars i) a.label a.content b.label b.content)
    | _, _ => none
  let isCommon : ZFrag → Bool := fun f =>
    match f.index with
    | some i => common.contains i
    | none => false
  let restIns := dIns.filter fun f => !isCommon f
  let restOuts := dOuts.filter fun f => !isCommon f
  matched ++ numberFrom 1 (restIns.zip restOuts)

theorem dedupIdx_cons_none {seen : List Nat} {g : ZFrag} {gs : List ZFrag}
    (hg : g.index = none) : dedupIdx seen (g :: gs) = g :: dedupIdx seen gs := by
  simp [dedupIdx, hg]

theorem dedupIdx_cons_mem {seen : List Nat} {g : ZFrag} {gs : List ZFrag} {i : Nat}
    (hg : g.index = some i) (hs : i ∈ seen) :
    dedupIdx seen (g :: gs) = dedupIdx seen gs := by
  simp [dedupIdx, hg, hs]

theorem dedupIdx_cons_new {seen : List Nat} {g : ZFrag} {gs : List ZFrag} {i : Nat}
    (hg : g.index = some i) (hs : i ∉ seen) :
    dedupIdx seen (g :: gs) = g :: dedupIdx (i :: seen) gs := by
  simp [dedupIdx, hg, hs]

theorem dedupIdx_subset {l : List ZFrag} :
    ∀ {seen : List Nat} {f : ZFrag}, f ∈ dedupIdx seen l → f ∈ l := by
  induction l with
  | nil => intro seen f h; simp [dedupIdx] at h
  | cons g gs ih =>
    intro seen f h
    match hg : g.index with
    | none =>
      rw [dedupIdx_cons_none hg] at h
      rcases List.mem_cons.mp h with rfl | h2
      · simp
      · exact List.mem_cons_of_mem _ (ih h2)
    | some i =>
      by_cases hs : i ∈ seen
      · rw [dedupIdx_cons_mem hg hs] at h
        exact List.mem_cons_of_mem _ (ih h)
      · rw [dedupIdx_cons_new hg hs] at h
        rcases List.mem_cons.mp h with rfl | h2
        · simp
        · exact List.mem_cons_of_mem _ (ih h2)

theorem numberFrom_origin {k : Nat} {ps : List (ZFrag × ZFrag)} {tc : TestCase}
    (h : tc ∈ numberFrom k ps) :
    ∃ p ∈ ps, tc.input_data = p.1.content ∧ tc.output_data = p.2.content := by
  induction ps generalizing k with
  | nil => simp [numberFrom] at h
  | cons p ps ih =>
    simp only [numberFrom] at h
    rcases List.mem_cons.mp h with rfl | h2
    · exact ⟨p, by simp, rfl, rfl⟩
    · obtain ⟨q, hq, h3⟩ := ih h2
      exact ⟨q, List.mem_cons_of_mem _ hq, h3⟩

theorem zipper_get_origin {z : SampleZipper} {tc : TestCase} (h : tc ∈ z.get) :
    (∃ f ∈ z.ins, tc.input_data = f.content) ∧ (∃ g ∈ z.outs, tc.output_data = g.content) := by
  rw [SampleZipper.get] at h
  rcases List.mem_append.mp h with hm | hp
  · obtain ⟨i, hi, hmk⟩ := List.mem_filterMap.mp hm
    match ha : List.find? (hasIdx i) (dedupIdx [] z.ins),
        hb : List.find? (hasIdx i) (dedupIdx [] z.outs) with
    | some a, some b =>
      rw [ha, hb] at hmk
      simp only [Option.some.injEq] at hmk
      subst hmk
      exact ⟨⟨a, dedupIdx_subset (List.mem_of_find?_eq_some ha), rfl⟩,
        ⟨b, dedupIdx_subset (List.mem_of_find?_eq_some hb), rfl⟩⟩
    | some a, none => rw [ha, hb] at hmk; simp at hmk
    | none, some b => rw [ha, hb] at hmk; simp at hmk
    | none, none => rw [ha, hb] at hmk; simp at hmk
  · obtain ⟨p, hp2, hin, hout⟩ := numberFrom_origin hp
    have hmem := List.of_mem_zip hp2
    exact ⟨⟨p.1, dedupIdx_subset (List.mem_of_mem_filter hmem.1), hin⟩,
      ⟨p.2, dedupIdx_subset (List.mem_of_mem_filter hmem.2), hout⟩⟩

theorem add_ins_origin {z : SampleZipper} {c l : Str} {f : ZFrag}
    (h : f ∈ (z.add c l).ins) : f ∈ z.ins ∨ f.content = c := by
  rw [SampleZipper.add] at h
  by_cases h1 : hasMarker inputMarkers l = true
  · rw [if_pos h1] at h
    simp only [List.mem_append, List.mem_singleton] at h
    rcases h with h | rfl
    · exact Or.inl h
    · exact Or.inr rfl
  · rw [if_neg h1] at h
    by_cases h2 : hasMarker outputMarkers l = true
    · rw [if_pos h2] at h
      exact Or.inl h
    · rw [if_neg h2] at h
      exact Or.inl h

theorem add_outs_origin {z : SampleZipper} {c l : Str} {g : ZFrag}
    (h : g ∈ (z.add c l).outs) : g ∈ z.outs ∨ g.content = c := by
  rw [SampleZipper.add] at h
  by_cases h1 : hasMarker inputMarkers l = true
  · rw [if_pos h1] at h
    exact Or.inl h
  · rw [if_neg h1] at h
    by_cases h2 : hasMarker outputMarkers l = true
    · rw [if_pos h2] at h
      simp only [List.mem_append, List.mem_singleton] at h
      rcases h with h | rfl
      · exact Or.inl h
      · exact Or.inr rfl
    · rw [if_neg h2] at h
      exact Or.inl h

/-- Folding a list of `(content, label)` pairs into the zipper, in order:
the embedding of a scrape loop that calls `add` once per fragment. -/
def SampleZipper.addAll (z : SampleZipper) (items : List (Str × Str)) : SampleZipper :=
  items.foldl (fun z2 it => z2.add it.1 it.2) z

theorem addAll_ins_origin {items : List (Str × Str)} :
    ∀ {z : SampleZipper} {f : ZFrag}, f ∈ (z.addAll items).ins →
      f ∈ z.ins ∨ ∃ it ∈ items, f.content = it.1 := by
  induction items with
  | nil => intro z f h; exact Or.inl h
  | cons it items ih =>
    intro z f h
    rcases ih (z := z.add it.1 it.2) h with h2 | ⟨it2, hit2, h3⟩
    · rcases add_ins_origin h2 with h3 | h3
      · exact Or.inl h3
      · exact Or.inr ⟨it, by simp, h3⟩
    · exact Or.inr ⟨it2, List.mem_cons_of_mem _ hit2, h3⟩

theorem addAll_outs_origin {items : List (Str × Str)} :
    ∀ {z : SampleZipper} {g : ZFrag}, g ∈ (z.addAll items).outs →
      g ∈ z.outs ∨ ∃ it ∈ items, g.content = it.1 := by
  induction items with
  | nil => intro z g h; exact Or.inl h
  | cons it items ih =>
    intro z g h
    rcases ih (z := z.add it.1 it.2) h with h2 | ⟨it2, hit2, h3⟩
    · rcases add_outs_origin h2 with h3 | h3
      · exact Or.inl h3
      · exact Or.inr ⟨it, by simp, h3⟩
    · exact Or.inr ⟨it2, List.mem_cons_of_mem _ hit2, h3⟩

/-- The scheme allow-list shared by every `from_url` in the sources. -/
def schemeOk (s : Str) : Prop := s = [] ∨ s = str "http" ∨ s = str "https"

instance (s : Str) : Decidable (schemeOk s) := by unfold schemeOk; infer_instance

/-- The embedding of `AnarchyGolfService` (identity only; it has no fields). -/
structure AnarchyGolfService where
deriving DecidableEq, Repr

def AnarchyGolfService.get_url (_ : AnarchyGolfService) : Str :=
  str "http://golf.shinh.org/"

def AnarchyGolfService.get_name (_ : AnarchyGolfService) : Str :=
  str "Anarchy Golf"

def AnarchyGolfService.from_url (url : Str) : Option AnarchyGolfService :=
  let result := urlparse url
  if schemeOk result.scheme ∧ result.netloc = str "golf.shinh.org" then
    some ⟨⟩
  else none

/-- The embedding of `AnarchyGolfProblem` (identity: the problem id carried
in the query string). -/
structure AnarchyGolfProblem where
  problem_id : Str
deriving DecidableEq, Repr

def AnarchyGolfProblem.get_url (p : AnarchyGolfProblem) : Str :=
  str "http://golf.shinh.org/p.rb?" ++ p.problem_id

def AnarchyGolfProblem.from_url (url : Str) : Option AnarchyGolfProblem :=
  let result := urlparse url
  if schemeOk result.scheme ∧ result.netloc = str "golf.shinh.org"
      ∧ normpath result.path = str "/p.rb" ∧ result.query ≠ [] then
    some ⟨result.query⟩
  else none

/-- A sibling node of an `h2` heading as seen through BeautifulSoup: a
NavigableString has `name = none`; a tag carries `name = some n`; `string`
embeds the node's `.string` attribute, which is `none` for a tag with
several children. -/
structure Sib where
  name : Option Str
  string : Option Str
deriving DecidableEq, Repr

/-- An `h2` tag of an Anarchy Golf problem page: its first content string
(`tag.contents[0]`) and the chain of following siblings. -/
structure AgTag where
  contents0 : Str
  siblings : List Sib
deriving DecidableEq, Repr

/-- The `while nxt and nxt.string.strip() == ''` loop of
`_parse_sample_tag`: skips blank-string siblings; evaluating `.strip()` on
a sibling whose `.string` is `None` raises `AttributeError`; returns the
first non-blank sibling, or `none` when the chain is exhausted. -/
def skipBlank : List Sib → Except PyErr (Option Sib)
  | [] => .ok none
  | sib :: rest =>
    match sib.string with
    | none => .error .AttributeError
    | some s => if strip s = [] then skipBlank rest else .ok (some sib)

/-- The embedding of `AnarchyGolfProblem._parse_sample_tag`.  A recognized
heading whose next non-blank sibling is a `pre` yields its string with the
first character dropped (`nxt.string[1:]`) and CRLF normalized; a `p`
sibling yields the explicit empty string; any other sibling leaves the
local `s` unassigned so `return s, name` raises `UnboundLocalError`, and a
missing sibling makes `nxt.name` raise `AttributeError`. -/
def AnarchyGolfProblem._parse_sample_tag (tag : AgTag) : Except PyErr (Option (Str × Str)) :=
  let name0 := tag.contents0
  let name := if ':' ∈ name0 then name0.takeWhile (fun c => !(c == ':')) else name0
  if name = str "Sample input" ∨ name = str "Sample output" then
    match skipBlank tag.siblings with
    | .error e => .error e
    | .ok none => .error .AttributeError
    | .ok (some sib) =>
      if sib.name = some (str "pre") then
        match sib.string with
        | some s => .ok (some (dos2unix (s.drop 1), name))
        | none => .error .TypeError
      else if sib.name = some (str "p") then
        .ok (some ([], name))
      else .error .UnboundLocalError
  else .ok none

/-- The fragments fed to the zipper by the `for h2 in soup.find_all('h2')`
loop of `AnarchyGolfProblem.download_sample_cases`, in document order; a
parse failure aborts the whole download. -/
def agCollect : List AgTag → Except PyErr (List (Str × Str))
  | [] => .ok []
  | t :: ts =>
    match AnarchyGolfProblem._parse_sample_tag t with
    | .error e => .error e
    | .ok none => agCollect ts
    | .ok (some frag) =>
      match agCollect ts with
      | .error e => .error e
      | .ok rest => .ok (frag :: rest)

/-- The collaborator state for an Anarchy Golf fetch: the `h2` tags of the
fetched problem page, in document order. -/
structure AgWorld where
  h2s : List AgTag

/-- The embedding of `AnarchyGolfProblem.download_sample_cases`: parse every
`h2`, add each recognized fragment to a fresh `SampleZipper`, return the
zipped test cases. -/
def AnarchyGolfProblem.download_sample_cases (w : AgWorld) (_ : AnarchyGolfProblem) :
    Except PyErr (List TestCase) :=
  match agCollect w.h2s with
  | .error e => .error e
  | .ok frags => .ok (SampleZipper.addAll SampleZipper.empty frags).get

/-- Reverse strip of a single character (Python `str.rstrip('/')`). -/
def rstripChar (c : Char) (s : Str) : Str :=
  (s.reverse.dropWhile fun a => a == c).reverse

/-- The embedding of `utils.DummySubmission`: a submission handle carrying
the result URL. -/
structure DummySubmission where
  url : Str
deriving DecidableEq, Repr

/-- The collaborator state seen by `submit_code`: whether the session is
authenticated, whether the judge accepts the submission (the `status`
field of the response JSON), and the new submission's model id. -/
structure SubmitWorld where
  loggedIn : Bool
  submitStatus : Bool
  modelId : Nat
deriving DecidableEq, Repr

/-- The host allow-list `_CODEFORCES_DOMAINS`. -/
def codeforcesDomains : List Str :=
  [str "codeforces.com", str "m1.codeforces.com", str "m2.codeforces.com", str "m3.codeforces.com"]

/-- The embedding of `CodeforcesService` (identity only). -/
structure CodeforcesService where
deriving DecidableEq, Repr

def CodeforcesService.get_url (_ : CodeforcesService) : Str :=
  str "https://codeforces.com/"

def CodeforcesService.from_url (url : Str) : Option CodeforcesService :=
  let result := urlparse url
  if schemeOk result.scheme ∧ result.netloc ∈ codeforcesDomains then
    some ⟨⟩
  else none

/-- The contest kinds accepted by `CodeforcesContest.__init__`. -/
inductive CFContestKind where
  | contest : CFContestKind
  | gym : CFContestKind
deriving DecidableEq, Repr

def CFContestKind.chars : CFContestKind → Str
  | .contest => str "contest"
  | .gym => str "gym"

/-- The embedding of `CodeforcesContest` (identity: numeric id and kind). -/
structure CodeforcesContest where
  contest_id : Int
  kind : CFContestKind
deriving DecidableEq, Repr

/-- The embedding of `CodeforcesContest.__init__`: when `kind` is omitted it
is inferred from the numeric id — `contest` below 100000, `gym` from
100000 on. -/
def CodeforcesContest.make (contest_id : Int) (kind : Option CFContestKind) : CodeforcesContest :=
  ⟨contest_id, kind.getD (if contest_id < 100000 then .contest else .gym)⟩

def CodeforcesContest.get_url (c : CodeforcesContest) : Str :=
  str "https://codeforces.com/" ++ c.kind.chars ++ '/' :: intToChars c.contest_id

/-- The embedding of the regex `/KIND/([0-9]+).*` matched with `re.match`:
the path starts with the literal, followed by at least one digit; the
greedy digit group is the maximal run; anything may follow. -/
def cfContestPath (kindStr : Str) (path : Str) : Option Int :=
  match matchLead ('/' :: kindStr ++ ['/']) path with
  | none => none
  | some r =>
    let ds := r.takeWhile Char.isDigit
    if ds = [] then none else some (Int.ofNat (charsToNat ds))

/-- The embedding of `CodeforcesContest.from_url`; the pattern table is
tried in insertion order: `contest`, then `gym`. -/
def CodeforcesContest.from_url (url : Str) : Option CodeforcesContest :=
  let result := urlparse url
  if schemeOk result.scheme ∧ result.netloc ∈ codeforcesDomains then
    match cfContestPath (str "contest") (normpath result.path) with
    | some cid => some (CodeforcesContest.make cid (some .contest))
    | none =>
      match cfContestPath (str "gym") (normpath result.path) with
      | some cid => some (CodeforcesContest.make cid (some .gym))
      | none => none
  else none

/-- The problem kinds accepted by `CodeforcesProblem.__init__`. -/
inductive CFKind where
  | contest : CFKind
  | gym : CFKind
  | problemset : CFKind
  | edu : CFKind
deriving DecidableEq, Repr

/-- The embedding of `CodeforcesProblem` (identity fields of the handle). -/
structure CodeforcesProblem where
  contest_id : Int
  index : Str
  kind : CFKind
  course : Option Int
  lesson : Option Int
  step : Option Int
deriving DecidableEq, Repr

/-- The preconditions asserted on `index` by `CodeforcesProblem.__init__`:
one or two characters, the first an ASCII uppercase letter, the second —
when present — an ASCII digit. -/
def indexOk : Str → Prop
  | [c] => c.isUpper = true
  | [c, d] => c.isUpper = true ∧ d.isDigit = true
  | _ => False

instance : ∀ s : Str, Decidable (indexOk s)
  | [] => by unfold indexOk; infer_instance
  | [_] => by unfold indexOk; infer_instance
  | [_, _] => by unfold indexOk; infer_instance
  | _ :: _ :: _ :: _ => by unfold indexOk; infer_instance

/-- The embedding of `CodeforcesProblem.__init__` with its kind inference:
`contest` below 100000, `gym` from 100000 on, unless a kind is given. -/
def CodeforcesProblem.make (contest_id : Int) (index : Str) (kind : Option CFKind)
    (course lesson step : Option Int) : CodeforcesProblem :=
  ⟨contest_id, index, kind.getD (if contest_id < 100000 then .contest else .gym),
    course, lesson, step⟩

/-- Python `str(x)` for `Optional[int]`: `None` renders as the four
characters `None` inside `str.format`. -/
def optIntToChars : Option Int → Str
  | none => str "None"
  | some i => intToChars i

/-- The embedding of `CodeforcesProblem.get_url` (the URL table keyed by
kind). -/
def CodeforcesProblem.get_url (p : CodeforcesProblem) : Str :=
  match p.kind with
  | .contest =>
    str "https://codeforces.com/contest/" ++ intToChars p.contest_id
      ++ str "/problem/" ++ p.index
  | .problemset =>
    str "https://codeforces.com/problemset/problem/" ++ intToChars p.contest_id
      ++ '/' :: p.index
  | .gym =>
    str "https://codeforces.com/gym/" ++ intToChars p.contest_id
      ++ str "/problem/" ++ p.index
  | .edu =>
    str "https://codeforces.com/edu/course/" ++ optIntToChars p.course
      ++ str "/lesson/" ++ optIntToChars p.lesson
      ++ '/' :: optIntToChars p.step
      ++ str "/practice/contest/" ++ intToChars p.contest_id
      ++ str "/problem/" ++ p.index

/-- The embedding of the index regex `0|[A-Za-z][1-9]?` anchored at the end
of the path: the remainder must be exactly `0`, a letter, or a letter
followed by a nonzero digit. -/
def matchIndexEnd : Str → Option Str
  | [c] => if c = '0' then some ['0'] else if c.isAlpha then some [c] else none
  | [c, d] => if c.isAlpha = true ∧ '1' ≤ d ∧ d ≤ '9' then some [c, d] else none
  | _ => none

/-- The index normalization of `CodeforcesProblem.from_url`: a literal `0`
resolves to `A`, otherwise the index is uppercased. -/
def normIndex (idx : Str) : Str :=
  if idx = ['0'] then ['A'] else idx.map Char.toUpper

/-- Matches a nonempty greedy digit run followed by a literal (a
`([0-9]+)LIT` piece of an anchored pattern). -/
def takeDigitsThen (lit : Str) (s : Str) : Option (Nat × Str) :=
  let ds := s.takeWhile Char.isDigit
  if ds = [] then none
  else (matchLead lit (s.dropWhile Char.isDigit)).map fun r => (charsToNat ds, r)

/-- Matches a possibly-empty greedy digit run followed by a literal (a
`([0-9]*)LIT` piece of the `edu` pattern). -/
def takeDigitsStarThen (lit : Str) (s : Str) : Option (Option Nat × Str) :=
  let ds := s.takeWhile Char.isDigit
  (matchLead lit (s.dropWhile Char.isDigit)).map fun r =>
    ((if ds = [] then none else some (charsToNat ds)), r)

def cfTryContest (path : Str) : Option CodeforcesProblem :=
  (matchLead (str "/contest/") path).bind fun r =>
  (takeDigitsThen (str "/problem/") r).bind fun g =>
  (matchIndexEnd g.2).map fun idx =>
  CodeforcesProblem.make (Int.ofNat g.1) (normIndex idx) (some .contest) none none none

def cfTryProblemset (path : Str) : Option CodeforcesProblem :=
  (matchLead (str "/problemset/problem/") path).bind fun r =>
  (takeDigitsThen ['/'] r).bind fun g =>
  (matchIndexEnd g.2).map fun idx =>
  CodeforcesProblem.make (Int.ofNat g.1) (normIndex idx) (some .problemset) none none none

def cfTryGym (path : Str) : Option CodeforcesProblem :=
  (matchLead (str "/gym/") path).bind fun r =>
  (takeDigitsThen (str "/problem/") r).bind fun g =>
  (matchIndexEnd g.2).map fun idx =>
  CodeforcesProblem.make (Int.ofNat g.1) (normIndex idx) (some .gym) none none none

/-- The `edu` pattern.  Its numeric groups are `[0-9]*`; on an (aliased)
URL with an empty group the source would raise `ValueError` inside
`int()`, a path outside every canonical URL, embedded here as a failed
match. -/
def cfTryEdu (path : Str) : Option CodeforcesProblem :=
  (matchLead (str "/edu/course/") path).bind fun r =>
  (takeDigitsStarThen (str "/lesson/") r).bind fun g1 =>
  (takeDigitsStarThen ['/'] g1.2).bind fun g2 =>
  (takeDigitsStarThen (str "/practice/contest/") g2.2).bind fun g3 =>
  (takeDigitsStarThen (str "/problem/") g3.2).bind fun g4 =>
  (matchIndexEnd g4.2).bind fun idx =>
  match g1.1, g2.1, g3.1, g4.1 with
  | some course, some lesson, some step, some cid =>
    some (CodeforcesProblem.make (Int.ofNat cid) (normIndex idx) (some .edu)
      (some (Int.ofNat course)) (some (Int.ofNat lesson)) (some (Int.ofNat step)))
  | _, _, _, _ => none

/-- The embedding of `CodeforcesProblem.from_url`; the pattern table is
tried in insertion order: `contest`, `problemset`, `gym`, `edu`. -/
def CodeforcesProblem.from_url (url : Str) : Option CodeforcesProblem :=
  let result := urlparse url
  if schemeOk result.scheme ∧ result.netloc ∈ codeforcesDomains then
    let path := normpath result.path
    match cfTryContest path with
    | some p => some p
    | none =>
      match cfTryProblemset path with
      | some p => some p
      | none =>
        match cfTryGym path with
        | some p => some p
        | none => cfTryEdu path
  else none

/-- The embedding of `CodeforcesProblem.submit_code`: the submission
feature was removed, so it raises `SubmissionError` unconditionally,
whatever the session or the judge would answer. -/
def CodeforcesProblem.submit_code (_w : SubmitWorld) (_p : CodeforcesProblem)
    (_code : Str) (_language_id : Str) : Except PyErr DummySubmission :=
  .error .SubmissionError

/-- The embedding of `HackerRankService` (identity only). -/
structure HackerRankService where
deriving DecidableEq, Repr

def HackerRankService.get_url (_ : HackerRankService) : Str :=
  str "https://www.hackerrank.com/"

def HackerRankService.from_url (url : Str) : Option HackerRankService :=
  let result := urlparse url
  if schemeOk result.scheme
      ∧ result.netloc ∈ [str "hackerrank.com", str "www.hackerrank.com"] then
    some ⟨⟩
  else none

/-- The embedding of `HackerRankProblem` (identity: contest and challenge
slugs). -/
structure HackerRankProblem where
  contest_slug : Str
  challenge_slug : Str
deriving DecidableEq, Repr

def HackerRankProblem.get_url (p : HackerRankProblem) : Str :=
  if p.contest_slug = str "master" then
    str "https://www.hackerrank.com/challenges/" ++ p.challenge_slug
  else
    str "https://www.hackerrank.com/contests/" ++ p.contest_slug
      ++ str "/challenges/" ++ p.challenge_slug

/-- The character class `[0-9A-Za-z-]` of the slug groups. -/
def slugChar (c : Char) : Bool := c.isAlphanum || c = '-'

/-- What may follow the last slug group: the optional `(/problem)?` literal
and the optional trailing slash, anchored at the end. -/
def hrTailOk (r : Str) : Bool :=
  r = [] || r = str "/" || r = str "/problem" || r = str "/problem/"

def hrTryContests (path : Str) : Option HackerRankProblem :=
  (matchLead (str "/contests/") path).bind fun r =>
  let cs := r.takeWhile slugChar
  if cs = [] then none
  else
    (matchLead (str "/challenges/") (r.dropWhile slugChar)).bind fun r2 =>
    let ch := r2.takeWhile slugChar
    if ch = [] then none
    else if hrTailOk (r2.dropWhile slugChar) then some ⟨cs, ch⟩ else none

def hrTryChallenges (path : Str) : Option HackerRankProblem :=
  (matchLead (str "/challenges/") path).bind fun r =>
  let ch := r.takeWhile slugChar
  if ch = [] then none
  else if hrTailOk (r.dropWhile slugChar) then some ⟨str "master", ch⟩ else none

/-- The embedding of `HackerRankProblem.from_url`: the contests form is
tried first, then the master-contest challenges form. -/
def HackerRankProblem.from_url (url : Str) : Option HackerRankProblem :=
  let result := urlparse url
  if schemeOk result.scheme
      ∧ result.netloc ∈ [str "hackerrank.com", str "www.hackerrank.com"] then
    match hrTryContests (normpath result.path) with
    | some p => some p
    | none => hrTryChallenges (normpath result.path)
  else none

/-- A named member of the downloaded archive. -/
structure NamedBlob where
  name : Str
  data : Str
deriving DecidableEq, Repr

/-- The collaborator state of a test-case fetch: either a transport
failure (with an error code) or a response status together with the
archive members of the response body. -/
structure FetchWorld where
  transport : Except Nat (Nat × List NamedBlob)

/-- Modelled from the spec: `utils.request` of the missing
`onlinejudge._implementation.utils` module — a transport failure is the
collaborator's own error, and with `raise_for_status` set a non-success
status (4xx/5xx) raises the collaborator's `HTTPError`, both propagated
unmodified. -/
def utilsRequest (w : FetchWorld) (raiseForStatus : Bool) : Except PyErr (Nat × List NamedBlob) :=
  match w.transport with
  | .error e => .error (.IOError e)
  | .ok r =>
    if raiseForStatus = true ∧ 400 ≤ r.1 ∧ r.1 < 600 then .error (.HTTPError r.1)
    else .ok r

/-- Matches `name = pre ++ s ++ post` and returns the middle part. -/
def matchWrapped (pre post name : Str) : Option Str :=
  (matchLead pre name).bind fun r =>
  (matchLead post.reverse r.reverse).map fun m => m.reverse

/-- Modelled from the spec: `testcase_zipper.extract_from_zip` of the
missing module, at the name format `%eput/%eput%s.txt` — an archive member
`input/inputS.txt` pairs with `output/outputS.txt` by the shared suffix
`S`; unmatched members are dropped. -/
def extract_from_zip (files : List NamedBlob) : List TestCase :=
  files.filterMap fun f =>
    (matchWrapped (str "input/input") (str ".txt") f.name).bind fun s =>
    (files.find? fun g => g.name == str "output/output" ++ s ++ str ".txt").map fun g =>
      TestCase.mk s f.name f.data g.name g.data

/-- The embedding of `HackerRankProblem.download_system_cases`: the
download URL is fetched without raising on status; a 403 is turned into a
`SampleParseError` about the User-Agent; any other non-success status
raises through `resp.raise_for_status()`; on success the archive is
unpacked by `extract_from_zip`. -/
def HackerRankProblem.download_system_cases (w : FetchWorld) (_p : HackerRankProblem) :
    Except PyErr (List TestCase) :=
  match utilsRequest w false with
  | .error e => .error e
  | .ok r =>
    if r.1 = 403 then
      .error (.SampleParseError (str "Access Denied. Did you set your User-Agent?"))
    else if 400 ≤ r.1 ∧ r.1 < 600 then .error (.HTTPError r.1)
    else .ok (extract_from_zip r.2)

/-- The embedding of `HackerRankProblem.download_sample_cases`: the source
returns `self.download_system_cases(session=session)` directly. -/
def HackerRankProblem.download_sample_cases (w : FetchWorld) (p : HackerRankProblem) :
    Except PyErr (List TestCase) :=
  HackerRankProblem.download_system_cases w p

/-- The embedding of `HackerRankProblem.submit_code`: an unauthenticated
session raises `NotLoggedInError`; a response JSON whose `status` field is
falsy raises `SubmissionError`; otherwise a `DummySubmission` pointing at
the new submission is returned.  The page fetch, CSRF-token scrape and
POST are collapsed into the collaborator state. -/
def HackerRankProblem.submit_code (w : SubmitWorld) (p : HackerRankProblem)
    (_code : Str) (_language_id : Str) : Except PyErr DummySubmission :=
  if w.loggedIn then
    if w.submitStatus then
      .ok ⟨rstripChar '/' p.get_url ++ str "/submissions/code/" ++ natToChars w.modelId⟩
    else .error .SubmissionError
  else .error .NotLoggedInError

/-- The embedding of `AOJService` (identity only). -/
structure AOJService where
deriving DecidableEq, Repr

def AOJService.get_url (_ : AOJService) : Str :=
  str "http://judge.u-aizu.ac.jp/onlinejudge/"

def AOJService.from_url (url : Str) : Option AOJService :=
  let result := urlparse url
  if schemeOk result.scheme
      ∧ result.netloc ∈ [str "judge.u-aizu.ac.jp", str "onlinejudge.u-aizu.ac.jp"] then
    some ⟨⟩
  else none

/-- The embedding of `AOJProblem` (identity: the canonical problem id). -/
structure AOJProblem where
  problem_id : Str
deriving DecidableEq, Repr

def AOJProblem.get_url (p : AOJProblem) : Str :=
  str "http://judge.u-aizu.ac.jp/onlinejudge/description.jsp?id=" ++ p.problem_id

/-- ASCII-level embedding of the regex classes `\w` and `\d`. -/
def wordChar (c : Char) : Bool := c.isAlphanum || c = '_'

def isWordStr (s : Str) : Bool := !s.isEmpty && s.all wordChar

def isDigitsStr (s : Str) : Bool := !s.isEmpty && s.all Char.isDigit

/-- The description-page branch of `AOJProblem.from_url`: host
`judge.u-aizu.ac.jp`, path `/onlinejudge/description.jsp`, and a query
whose `id` key holds exactly one (truthy) value. -/
def aojTryDescription (result : UrlParts) : Option AOJProblem :=
  if result.netloc = str "judge.u-aizu.ac.jp"
      ∧ normpath result.path = str "/onlinejudge/description.jsp" then
    match qsGet (parse_qs result.query) (str "id") with
    | some [n] => some ⟨n⟩
    | _ => none
  else none

/-- The challenges/courses branch of `AOJProblem.from_url`: the regex
`^/(challenges|courses)/(sources|library/\d+|lesson/\d+)/(\w+)/(\w+)/(\w+)$`
on the normalized path, keeping the last group. -/
def aojTryChallenges (result : UrlParts) : Option AOJProblem :=
  if result.netloc = str "onlinejudge.u-aizu.ac.jp" then
    match splitAll '/' (normpath result.path) with
    | [a, b, c, d, e, f] =>
      if a = [] ∧ (b = str "challenges" ∨ b = str "courses") ∧ c = str "sources"
          ∧ isWordStr d = true ∧ isWordStr e = true ∧ isWordStr f = true then
        some ⟨f⟩
      else none
    | [a, b, c, n, d, e, f] =>
      if a = [] ∧ (b = str "challenges" ∨ b = str "courses")
          ∧ (c = str "library" ∨ c = str "lesson") ∧ isDigitsStr n = true
          ∧ isWordStr d = true ∧ isWordStr e = true ∧ isWordStr f = true then
        some ⟨f⟩
      else none
    | _ => none
  else none

/-- The problems branch of `AOJProblem.from_url`: the regex
`^/problems/(\w+)$` on the normalized path. -/
def aojTryProblems (result : UrlParts) : Option AOJProblem :=
  if result.netloc = str "onlinejudge.u-aizu.ac.jp" then
    match splitAll '/' (normpath result.path) with
    | [a, b, c] =>
      if a = [] ∧ b = str "problems" ∧ isWordStr c = true then some ⟨c⟩ else none
    | _ => none
  else none

/-- The embedding of `AOJProblem.from_url`: the three URL shapes are tried
in source order. -/
def AOJProblem.from_url (url : Str) : Option AOJProblem :=
  let result := urlparse url
  if schemeOk result.scheme then
    match aojTryDescription result with
    | some p => some p
    | none =>
      match aojTryChallenges result with
      | some p => some p
      | none => aojTryProblems result
  else none

/-- One sample of the official-API response JSON. -/
structure AojSample where
  serial : Int
  inData : Str
  outData : Str
deriving DecidableEq, Repr

/-- The previous sibling of a `pre` tag in the description HTML. -/
structure AojPrevTag where
  name : Str
  string : Option Str
deriving DecidableEq, Repr

/-- A `pre` tag of the description HTML with its previous sibling. -/
structure AojPre where
  content : Str
  prev : Option AojPrevTag
deriving DecidableEq, Repr

/-- One system-case header of the official API. -/
structure AojHeader where
  serial : Str
  name : Str
deriving DecidableEq, Repr

/-- The collaborator state of an AOJ fetch, indexed by problem id: the
official-API samples, the description-page `pre` tags, and the system-case
headers with their data. -/
structure AojWorld where
  samplesFor : Str → List AojSample
  htmlFor : Str → List AojPre
  headersFor : Str → List AojHeader
  inDataFor : Str → Str → Str
  outDataFor : Str → Str → Str

/-- Modelled from the spec: `utils.parse_content` of the missing
`onlinejudge._implementation.utils` module — extraction of a tag's literal
text, which the collaborator state already carries. -/
def parse_content (pre : AojPre) : Str := pre.content

def aojExpected : List Str :=
  [str "入力例", str "出力例", str "Sample Input", str "Sample Output"]

/-- One step of the HTML-fallback loop of
`AOJProblem.download_sample_cases`: a `pre` whose previous sibling is an
`h3` with a truthy string containing one of the expected headings
contributes `textfile(parse_content(pre).lstrip())` under that string. -/
def aojFrag (pre : AojPre) : Option (Str × Str) :=
  match pre.prev with
  | none => none
  | some t =>
    match t.string with
    | none => none
    | some s =>
      if t.name = str "h3" ∧ s ≠ []
          ∧ (aojExpected.any fun e => isSub e s) = true then
        some (textfile (lstrip (parse_content pre)), s)
      else none

/-- The fragments fed to the zipper by the HTML-fallback loop, in document
order. -/
def aojFragments (pres : List AojPre) : List (Str × Str) :=
  pres.filterMap aojFrag

/-- The embedding of `AOJProblem.download_sample_cases`: samples from the
official API verbatim (named `sample-i`, labeled by their serial); when the
API returns none, the description HTML is scraped and zipped. -/
def AOJProblem.download_sample_cases (w : AojWorld) (p : AOJProblem) : List TestCase :=
  let samples := (w.samplesFor p.problem_id).enum.map fun e =>
    TestCase.mk (str "sample-" ++ natToChars (e.1 + 1)) (intToChars e.2.serial) e.2.inData
      (intToChars e.2.serial) e.2.outData
  if samples = [] then
    (SampleZipper.addAll SampleZipper.empty (aojFragments (w.htmlFor p.problem_id))).get
  else samples

/-- The embedding of `AOJProblem.download_system_cases`: one test case per
header, fetching the `in` and `out` bodies verbatim. -/
def AOJProblem.download_system_cases (w : AojWorld) (p : AOJProblem) : List TestCase :=
  (w.headersFor p.problem_id).map fun h =>
    TestCase.mk h.name h.name (w.inDataFor p.problem_id h.serial) h.name
      (w.outDataFor p.problem_id h.serial)

/-- The embedding of `AOJArenaProblem`: arena id, letter, and the private
lazily-resolved problem-id memo slot (`None` at construction). -/
structure AOJArenaProblem where
  arena_id : Str
  alphabet : Str
  _problem_id : Option Str
deriving DecidableEq, Repr

/-- The constructor precondition `assert alphabet in string.ascii_uppercase`
(the Python `in` test on strings is substring containment). -/
def alphabetOk (alphabet : Str) : Prop :=
  isSub alphabet (str "ABCDEFGHIJKLMNOPQRSTUVWXYZ") = true

/-- The embedding of `AOJArenaProblem.__init__`: the memo slot starts
unpopulated. -/
def AOJArenaProblem.make (arena_id alphabet : Str) : AOJArenaProblem :=
  ⟨arena_id, alphabet, none⟩

def AOJArenaProblem.get_url (p : AOJArenaProblem) : Str :=
  str "https://onlinejudge.u-aizu.ac.jp/services/room.html#" ++ p.arena_id
    ++ str "/problems/" ++ p.alphabet

/-- The embedding of `AOJArenaProblem.from_url`: host and path must match
the arena page, and the fragment must split on `/` into exactly
`arena/problems/letter`; the letter is uppercased. -/
def AOJArenaProblem.from_url (url : Str) : Option AOJArenaProblem :=
  let result := urlparse url
  if schemeOk result.scheme ∧ result.netloc = str "onlinejudge.u-aizu.ac.jp"
      ∧ normpath result.path = str "/services/room.html" then
    match splitAll '/' result.fragment with
    | [a, b, c] =>
      if b = str "problems" then some (AOJArenaProblem.make a (c.map Char.toUpper))
      else none
    | _ => none
  else none

/-- The arena-API collaborator state: the `id`/`problemId` pairs of the
arena's problem list. -/
structure ArenaWorld where
  problems : List (Str × Str)

/-- The `for problem in problems: if problem['id'] == self.alphabet` loop:
the first matching entry wins. -/
def lookupAlphabet (ps : List (Str × Str)) (alpha : Str) : Option Str :=
  (ps.find? fun q => q.1 == alpha).map fun q => q.2

/-- The embedding of `AOJArenaProblem.get_problem_id` with the handle as
explicit state: returns the resolved id, the updated handle, and whether a
fetch was performed.  A populated slot is returned as is, without
fetching; an empty slot triggers the fetch and is populated only when the
alphabet resolves. -/
def AOJArenaProblem.get_problem_id (w : ArenaWorld) (p : AOJArenaProblem) :
    Option Str × AOJArenaProblem × Bool :=
  match p._problem_id with
  | some v => (some v, p, false)
  | none =>
    match lookupAlphabet w.problems p.alphabet with
    | some pid => (some pid, { p with _problem_id := some pid }, true)
    | none => (none, p, true)

/-- Python string of the delegated problem id: an unresolved `None` id
formats as `None` inside the inner handle's URL. -/
def optPid : Option Str → Str
  | none => str "None"
  | some s => s

/-- The embedding of `AOJArenaProblem.download_sample_cases`: delegates to
an `AOJProblem` built from the lazily resolved problem id. -/
def AOJArenaProblem.download_sample_cases (aw : ArenaWorld) (w : AojWorld)
    (p : AOJArenaProblem) : List TestCase × AOJArenaProblem :=
  let r := AOJArenaProblem.get_problem_id aw p
  (AOJProblem.download_sample_cases w ⟨optPid r.1⟩, r.2.1)

/-- The embedding of `AOJArenaProblem.download_system_cases`: delegates to
an `AOJProblem` built from the lazily resolved problem id. -/
def AOJArenaProblem.download_system_cases (aw : ArenaWorld) (w : AojWorld)
    (p : AOJArenaProblem) : List TestCase × AOJArenaProblem :=
  let r := AOJArenaProblem.get_problem_id aw p
  (AOJProblem.download_system_cases w ⟨optPid r.1⟩, r.2.1)

theorem ne_of_toNat_ne {c d : Char} (h : c.toNat ≠ d.toNat) : c ≠ d :=
  fun e => h (congrArg Char.toNat e)

theorem isUpper_toNat {c : Char} (h : c.isUpper = true) : 65 ≤ c.toNat ∧ c.toNat ≤ 90 := by
  simp only [Char.isUpper, Bool.and_eq_true, decide_eq_true_eq, ge_iff_le] at h
  exact ⟨h.1, h.2⟩

theorem isDigit_toNat {c : Char} (h : c.isDigit = true) : 48 ≤ c.toNat ∧ c.toNat ≤ 57 := by
  simp only [Char.isDigit, Bool.and_eq_true, decide_eq_true_eq, ge_iff_le] at h
  exact ⟨h.1, h.2⟩

theorem isAlphanum_toNat {c : Char} (h : c.isAlphanum = true) :
    (48 ≤ c.toNat ∧ c.toNat ≤ 57) ∨ (65 ≤ c.toNat ∧ c.toNat ≤ 90)
      ∨ (97 ≤ c.toNat ∧ c.toNat ≤ 122) := by
  simp only [Char.isAlphanum, Char.isAlpha, Char.isUpper, Char.isLower, Char.isDigit,
    Bool.or_eq_true, Bool.and_eq_true, decide_eq_true_eq, ge_iff_le] at h
  rcases h with (h | h) | h
  exacts [Or.inr (Or.inl ⟨h.1, h.2⟩), Or.inr (Or.inr ⟨h.1, h.2⟩), Or.inl ⟨h.1, h.2⟩]

theorem toUpper_of_toNat_lt {c : Char} (h : c.toNat < 97) : c.toUpper = c := by
  show (if c.toNat ≥ 97 ∧ c.toNat ≤ 122 then Char.ofNat (c.toNat - 32) else c) = c
  rw [if_neg (by omega)]

theorem isUpper_toUpper {c : Char} (h : c.isUpper = true) : c.toUpper = c :=
  toUpper_of_toNat_lt (by have := isUpper_toNat h; omega)

theorem isDigit_toUpper {c : Char} (h : c.isDigit = true) : c.toUpper = c :=
  toUpper_of_toNat_lt (by have := isDigit_toNat h; omega)

theorem isUpper_isAlpha {c : Char} (h : c.isUpper = true) : c.isAlpha = true := by
  simp [Char.isAlpha, h]

/-- Claim C3 counterexample: there is no input on which the two HackerRank
downloads differ — `download_sample_cases` delegates to
`download_system_cases`, so they agree on every collaborator state and
problem. -/
theorem c3_counterexample :
    ¬ ∃ (w : FetchWorld) (p : HackerRankProblem),
      HackerRankProblem.download_sample_cases w p
        ≠ HackerRankProblem.download_system_cases w p := by
  rintro ⟨w, p, h⟩
  exact h rfl

/-- Claim C3 (amended): for every collaborator state and problem,
`HackerRankProblem.download_sample_cases` returns exactly the result of
`HackerRankProblem.download_system_cases` — the sample download delegates
to the system-case download rather than being a distinct code path. -/
theorem c3_delegation (w : FetchWorld) (p : HackerRankProblem) :
    HackerRankProblem.download_sample_cases w p
      = HackerRankProblem.download_system_cases w p := rfl

/-- Claim C2 counterexample: with an authenticated session and a judge
that accepts the submission, `CodeforcesProblem.submit_code` still raises
`SubmissionError` instead of returning a submission handle. -/
theorem c2_counterexample :
    (SubmitWorld.mk true true 1).loggedIn = true
    ∧ (SubmitWorld.mk true true 1).submitStatus = true
    ∧ CodeforcesProblem.submit_code (SubmitWorld.mk true true 1)
        (CodeforcesProblem.make 1000 (str "A") none none none none) (str "print(1)") (str "54")
      = .error .SubmissionError :=
  ⟨rfl, rfl, rfl⟩

/-- Claim C2 (amended): with an authenticated session,
`HackerRankProblem.submit_code` raises `SubmissionError` exactly when the
judge rejects the submission and otherwise returns a submission handle,
while `CodeforcesProblem.submit_code` raises `SubmissionError`
unconditionally because the submission feature was removed. -/
theorem c2_submit_amended (w : SubmitWorld) (p : HackerRankProblem) (q : CodeforcesProblem)
    (code lang : Str) (h : w.loggedIn = true) :
    (HackerRankProblem.submit_code w p code lang = .error .SubmissionError
        ↔ w.submitStatus = false)
    ∧ (w.submitStatus = true →
        HackerRankProblem.submit_code w p code lang
          = .ok ⟨rstripChar '/' p.get_url ++ str "/submissions/code/" ++ natToChars w.modelId⟩)
    ∧ CodeforcesProblem.submit_code w q code lang = .error .SubmissionError := by
  refine ⟨?_, ?_, rfl⟩
  · rw [HackerRankProblem.submit_code, if_pos h]
    cases hs : w.submitStatus <;> simp [hs]
  · intro hs
    rw [HackerRankProblem.submit_code, if_pos h, if_pos hs]

/-- Claim C2 witness. -/
theorem c2_submit_amended_witness :
    (HackerRankProblem.submit_code (SubmitWorld.mk true false 1)
        (HackerRankProblem.mk (str "master") (str "fp-hello-world")) (str "x") (str "hs")
      = .error .SubmissionError ↔ (SubmitWorld.mk true false 1).submitStatus = false) :=
  (c2_submit_amended (SubmitWorld.mk true false 1)
    (HackerRankProblem.mk (str "master") (str "fp-hello-world"))
    (CodeforcesProblem.make 1 (str "A") none none none none) (str "x") (str "hs") rfl).1

/-- Claim C4 counterexample: a 403 response does not propagate as the
collaborator's own `HTTPError 403`; it is replaced by a
`SampleParseError` about the User-Agent. -/
theorem c4_counterexample :
    HackerRankProblem.download_system_cases ⟨.ok (403, [])⟩
        ⟨str "hourrank-1", str "beautiful-array"⟩
      = .error (.SampleParseError (str "Access Denied. Did you set your User-Agent?"))
    ∧ (Except.error (PyErr.SampleParseError (str "Access Denied. Did you set your User-Agent?"))
        : Except PyErr (List TestCase))
      ≠ .error (.HTTPError 403) := by
  refine ⟨rfl, ?_⟩
  simp

/-- Claim C4 (amended): in `HackerRankProblem.download_system_cases`, a
transport failure propagates unmodified as the collaborator's own error,
and a non-success status other than 403 propagates unmodified as the
collaborator's `HTTPError`; a 403 alone is converted into a
`SampleParseError`. -/
theorem c4_propagation_amended (w : FetchWorld) (p : HackerRankProblem) :
    (∀ e, w.transport = .error e →
      HackerRankProblem.download_system_cases w p = .error (.IOError e))
    ∧ (∀ status files, w.transport = .ok (status, files) →
        400 ≤ status → status < 600 → status ≠ 403 →
        HackerRankProblem.download_system_cases w p = .error (.HTTPError status))
    ∧ (∀ files, w.transport = .ok (403, files) →
        HackerRankProblem.download_system_cases w p
          = .error (.SampleParseError (str "Access Denied. Did you set your User-Agent?"))) := by
  refine ⟨?_, ?_, ?_⟩
  · intro e he
    simp [HackerRankProblem.download_system_cases, utilsRequest, he]
  · intro status files ht h4 h6 h403
    simp [HackerRankProblem.download_system_cases, utilsRequest, ht, h403, h4, h6]
  · intro files ht
    simp [HackerRankProblem.download_system_cases, utilsRequest, ht]

/-- Claim C4 witness. -/
theorem c4_propagation_amended_witness :
    HackerRankProblem.download_system_cases ⟨.error 7⟩ ⟨str "master", str "x"⟩
      = .error (.IOError 7)
    ∧ HackerRankProblem.download_system_cases ⟨.ok (500, [])⟩ ⟨str "master", str "x"⟩
      = .error (.HTTPError 500) :=
  ⟨(c4_propagation_amended ⟨.error 7⟩ ⟨str "master", str "x"⟩).1 7 rfl,
   (c4_propagation_amended ⟨.ok (500, [])⟩ ⟨str "master", str "x"⟩).2.1 500 [] rfl
     (by omega) (by omega) (by omega)⟩

/-- Claim C6: on a recognized heading whose following block is neither a
`pre` nor a `p` (here a `b` tag with text), `_parse_sample_tag` raises a
plain `UnboundLocalError` — not a content-extraction error — and on a
recognized heading with no following sibling at all it raises
`AttributeError`. -/
theorem c6_code_bug_eval :
    AnarchyGolfProblem._parse_sample_tag
        ⟨str "Sample input", [⟨some (str "b"), some (str "x")⟩]⟩
      = .error .UnboundLocalError
    ∧ AnarchyGolfProblem._parse_sample_tag ⟨str "Sample input", []⟩
      = .error .AttributeError
    ∧ PyErr.UnboundLocalError ≠ PyErr.SampleParseError (str "x") := by
  refine ⟨rfl, rfl, ?_⟩
  decide

/-- Claim C9: a `CodeforcesContest` or `CodeforcesProblem` constructed
without an explicit kind infers `contest` for ids below 100000 and `gym`
otherwise, and the contest URL embeds exactly that inferred kind. -/
theorem c9_kind_inference (cid : Int) (idx : Str) (c l s : Option Int) :
    (CodeforcesContest.make cid none).kind
        = (if cid < 100000 then CFContestKind.contest else CFContestKind.gym)
    ∧ (CodeforcesProblem.make cid idx none c l s).kind
        = (if cid < 100000 then CFKind.contest else CFKind.gym)
    ∧ (CodeforcesContest.make cid none).get_url
        = str "https://codeforces.com/" ++ (if cid < 100000 then str "contest" else str "gym")
          ++ '/' :: intToChars cid := by
  refine ⟨?_, ?_, ?_⟩ <;> by_cases h : cid < 100000 <;>
    simp [CodeforcesContest.make, CodeforcesProblem.make, CodeforcesContest.get_url,
      CFContestKind.chars, h]

/-- Claim C7: a populated memo slot is returned as is — no fetch, no
overwrite, state unchanged — and both arena downloads delegate to an
`AOJProblem` carrying exactly that memoized id; an empty slot is populated
by the first successful resolution, after which any later call (under any
collaborator state) returns the same value without fetching. -/
theorem c7_memo_slot (aw aw2 : ArenaWorld) (w : AojWorld) (p : AOJArenaProblem) (v : Str)
    (h : p._problem_id = some v) :
    AOJArenaProblem.get_problem_id aw p = (some v, p, false)
    ∧ AOJArenaProblem.download_sample_cases aw w p
        = (AOJProblem.download_sample_cases w ⟨v⟩, p)
    ∧ AOJArenaProblem.download_system_cases aw w p
        = (AOJProblem.download_system_cases w ⟨v⟩, p)
    ∧ (∀ (p0 : AOJArenaProblem) (pid : Str), p0._problem_id = none →
        lookupAlphabet aw.problems p0.alphabet = some pid →
        AOJArenaProblem.get_problem_id aw p0
            = (some pid, { p0 with _problem_id := some pid }, true)
          ∧ AOJArenaProblem.get_problem_id aw2 { p0 with _problem_id := some pid }
            = (some pid, { p0 with _problem_id := some pid }, false)) := by
  refine ⟨?_, ?_, ?_, ?_⟩
  · simp [AOJArenaProblem.get_problem_id, h]
  · simp [AOJArenaProblem.download_sample_cases, AOJArenaProblem.get_problem_id, h, optPid]
  · simp [AOJArenaProblem.download_system_cases, AOJArenaProblem.get_problem_id, h, optPid]
  · intro p0 pid h0 hl
    constructor
    · simp [AOJArenaProblem.get_problem_id, h0, hl]
    · simp [AOJArenaProblem.get_problem_id]

/-- Claim C7 witness. -/
theorem c7_memo_slot_witness :
    AOJArenaProblem.get_problem_id ⟨[(str "A", str "2444")]⟩
        ⟨str "RitsCamp19Day2", str "A", some (str "2444")⟩
      = (some (str "2444"), ⟨str "RitsCamp19Day2", str "A", some (str "2444")⟩, false) :=
  (c7_memo_slot ⟨[(str "A", str "2444")]⟩ ⟨[]⟩
    ⟨fun _ => [], fun _ => [], fun _ => [], fun _ _ => [], fun _ _ => []⟩
    ⟨str "RitsCamp19Day2", str "A", some (str "2444")⟩ (str "2444") rfl).1

/-- Claim C10: `CodeforcesProblem.from_url` maps `.../problem/0`,
`.../problem/a` and `.../problem/A` to one and the same identity with
index `A`, and `AOJArenaProblem.from_url` uppercases the letter taken from
the URL fragment. -/
theorem c10_index_normalization :
    CodeforcesProblem.from_url (str "https://codeforces.com/contest/1000/problem/0")
      = some (CodeforcesProblem.mk 1000 (str "A") .contest none none none)
    ∧ CodeforcesProblem.from_url (str "https://codeforces.com/contest/1000/problem/a")
      = CodeforcesProblem.from_url (str "https://codeforces.com/contest/1000/problem/0")
    ∧ CodeforcesProblem.from_url (str "https://codeforces.com/contest/1000/problem/A")
      = CodeforcesProblem.from_url (str "https://codeforces.com/contest/1000/problem/0")
    ∧ AOJArenaProblem.from_url
        (str "https://onlinejudge.u-aizu.ac.jp/services/room.html#RitsCamp19Day2/problems/a")
      = some (AOJArenaProblem.mk (str "RitsCamp19Day2") (str "A") none) := by
  refine ⟨?_, ?_, ?_, ?_⟩ <;> decide

theorem agCollect_mem {t : AgTag} {c : Str × Str}
    (hpt : AnarchyGolfProblem._parse_sample_tag t = .ok (some c)) :
    ∀ {tags : List AgTag} {frags : List (Str × Str)},
      t ∈ tags → agCollect tags = .ok frags → c ∈ frags := by
  intro tags
  induction tags with
  | nil => intro frags hmem; cases hmem
  | cons t2 ts ih =>
    intro frags hmem hcoll
    rcases List.mem_cons.mp hmem with rfl | hmem2
    · rw [show agCollect (t :: ts)
          = (match AnarchyGolfProblem._parse_sample_tag t with
             | .error e => .error e
             | .ok none => agCollect ts
             | .ok (some frag) =>
               match agCollect ts with
               | .error e => .error e
               | .ok rest => .ok (frag :: rest)) from rfl, hpt] at hcoll
      match hats : agCollect ts with
      | .error e => rw [hats] at hcoll; cases hcoll
      | .ok rest =>
        rw [hats] at hcoll
        simp only [Except.ok.injEq] at hcoll
        rw [← hcoll]
        simp
    · rw [show agCollect (t2 :: ts)
          = (match AnarchyGolfProblem._parse_sample_tag t2 with
             | .error e => .error e
             | .ok none => agCollect ts
             | .ok (some frag) =>
               match agCollect ts with
               | .error e => .error e
               | .ok rest => .ok (frag :: rest)) from rfl] at hcoll
      match hpt2 : AnarchyGolfProblem._parse_sample_tag t2 with
      | .error e => rw [hpt2] at hcoll; cases hcoll
      | .ok none => rw [hpt2] at hcoll; exact ih hmem2 hcoll
      | .ok (some f) =>
        rw [hpt2] at hcoll
        match hats : agCollect ts with
        | .error e => rw [hats] at hcoll; cases hcoll
        | .ok rest =>
          rw [hats] at hcoll
          simp only [Except.ok.injEq] at hcoll
          rw [← hcoll]
          exact List.mem_cons_of_mem _ (ih hmem2 hats)

/-- Claim C5: a recognized `Sample input`/`Sample output` heading whose
next non-blank sibling is a `p` tag parses to the explicit empty content
`b""` — a present fragment, not a dropped one — and that empty fragment is
among the fragments handed to the zipper by `download_sample_cases`
whenever the heading is on the page and the page parses. -/
theorem c5_empty_content (t : AgTag) (name : Str) (sib : Sib)
    (hname : (if ':' ∈ t.contents0 then t.contents0.takeWhile (fun c => !(c == ':'))
        else t.contents0) = name)
    (hrec : name = str "Sample input" ∨ name = str "Sample output")
    (hskip : skipBlank t.siblings = .ok (some sib))
    (hp : sib.name = some (str "p")) :
    AnarchyGolfProblem._parse_sample_tag t = .ok (some ([], name))
    ∧ ∀ (tags : List AgTag) (frags : List (Str × Str)),
        t ∈ tags → agCollect tags = .ok frags → ([], name) ∈ frags := by
  have hne : ¬ sib.name = some (str "pre") := by rw [hp]; decide
  have hss : ¬ (str "p" = str "pre") := by decide
  have h1 : AnarchyGolfProblem._parse_sample_tag t = .ok (some ([], name)) := by
    rcases hrec with rfl | rfl <;>
      simp [AnarchyGolfProblem._parse_sample_tag, hname, hskip, hne, hp, hss]
  exact ⟨h1, fun tags frags hmem hcoll => agCollect_mem h1 hmem hcoll⟩

/-- Claim C5 witness. -/
theorem c5_empty_content_witness :
    AnarchyGolfProblem._parse_sample_tag
        ⟨str "Sample input", [⟨some (str "p"), some (str "x")⟩]⟩
      = .ok (some ([], str "Sample input")) :=
  (c5_empty_content ⟨str "Sample input", [⟨some (str "p"), some (str "x")⟩]⟩
    (str "Sample input") ⟨some (str "p"), some (str "x")⟩ (by decide) (Or.inl rfl)
    rfl rfl).1

theorem aojFrag_eq {pre : AojPre} {it : Str × Str} (h : aojFrag pre = some it) :
    it.1 = textfile (lstrip (parse_content pre)) := by
  unfold aojFrag at h
  split at h
  · cases h
  · split at h
    · cases h
    · split at h
      · cases h; rfl
      · cases h

theorem snd_mem_of_mem_enumFrom {α : Type} {e : Nat × α} :
    ∀ {n : Nat} {l : List α}, e ∈ l.enumFrom n → e.2 ∈ l := by
  intro n l
  induction l generalizing n with
  | nil => intro h; cases h
  | cons a l ih =>
    intro h
    rcases List.mem_cons.mp h with rfl | h2
    · simp
    · exact List.mem_cons_of_mem _ (ih h2)

theorem enum_map_ne_nil {α β : Type} {a : α} {as : List α} (f : Nat × α → β) :
    (a :: as).enum.map f ≠ [] := by
  simp [List.enum]

/-- The contents a sample's bytes may legitimately take when only newline
normalization of the scraped content is permitted, as the spec words it:
the exact copy, or its CRLF-normalized or final-newline-normalized forms. -/
def nlNormOnly (orig out : Str) : Prop :=
  out = orig ∨ out = dos2unix orig ∨ out = textfile orig ∨ out = textfile (dos2unix orig)

instance (orig out : Str) : Decidable (nlNormOnly orig out) := by
  unfold nlNormOnly; infer_instance

/-- Claim C8 counterexample: on the HTML-fallback path, a scraped sample
whose text starts with a space (here the page holds fragments ` a` and
`b`) is emitted with content `a\n` — the leading space was stripped, which
is neither an exact copy nor a newline normalization of either scraped
fragment. -/
theorem c8_counterexample :
    AOJProblem.download_sample_cases
        ⟨fun _ => [],
         fun _ => [⟨str " a", some ⟨str "h3", some (str "Sample Input 1")⟩⟩,
                   ⟨str "b", some ⟨str "h3", some (str "Sample Output 1")⟩⟩],
         fun _ => [], fun _ _ => [], fun _ _ => []⟩ ⟨str "2256"⟩
      = [TestCase.mk (str "1") (str "Sample Input 1") (str "a\n")
          (str "Sample Output 1") (str "b\n")]
    ∧ ¬ nlNormOnly (str " a") (str "a\n")
    ∧ ¬ nlNormOnly (str "b") (str "a\n") := by
  refine ⟨?_, ?_, ?_⟩ <;> decide

/-- Claim C8 (amended): every test case returned by
`AOJProblem.download_sample_cases` takes its bytes from the scraped
content — verbatim on the official-API path; on the HTML-fallback path
as `textfile(content.lstrip())`, that is with leading whitespace stripped
and a final newline ensured, on top of any newline normalization. -/
theorem c8_content_amended (w : AojWorld) (p : AOJProblem) (tc : TestCase)
    (h : tc ∈ AOJProblem.download_sample_cases w p) :
    (w.samplesFor p.problem_id ≠ [] →
      ∃ smp ∈ w.samplesFor p.problem_id,
        tc.input_data = smp.inData ∧ tc.output_data = smp.outData)
    ∧ (w.samplesFor p.problem_id = [] →
      (∃ pre ∈ w.htmlFor p.problem_id,
        tc.input_data = textfile (lstrip (parse_content pre)))
      ∧ (∃ pre ∈ w.htmlFor p.problem_id,
        tc.output_data = textfile (lstrip (parse_content pre)))) := by
  constructor
  · intro hne
    match hl : w.samplesFor p.problem_id with
    | [] => exact absurd hl hne
    | smp :: rest =>
      rw [AOJProblem.download_sample_cases] at h
      simp only [hl] at h
      rw [if_neg (enum_map_ne_nil _)] at h
      obtain ⟨e, he, rfl⟩ := List.mem_map.mp h
      refine ⟨e.2, ?_, rfl, rfl⟩
      rw [← hl]
      exact hl ▸ snd_mem_of_mem_enumFrom he
  · intro hnil
    rw [AOJProblem.download_sample_cases] at h
    simp only [hnil] at h
    rw [if_pos (by simp [List.enum])] at h
    have horigin := zipper_get_origin h
    obtain ⟨⟨f, hf, hfc⟩, ⟨g, hg, hgc⟩⟩ := horigin
    constructor
    · rcases addAll_ins_origin hf with h2 | ⟨it, hit, h3⟩
      · cases h2
      · obtain ⟨pre, hpre, hfrag⟩ := List.mem_filterMap.mp hit
        exact ⟨pre, hpre, by rw [hfc, h3, aojFrag_eq hfrag]⟩
    · rcases addAll_outs_origin hg with h2 | ⟨it, hit, h3⟩
      · cases h2
      · obtain ⟨pre, hpre, hfrag⟩ := List.mem_filterMap.mp hit
        exact ⟨pre, hpre, by rw [hgc, h3, aojFrag_eq hfrag]⟩

/-- Claim C8 witness. -/
theorem c8_content_amended_witness :
    ∃ smp ∈ [AojSample.mk 1 (str "in\n") (str "out\n")],
      (TestCase.mk (str "sample-1") (str "1") (str "in\n") (str "1") (str "out\n")).input_data
          = smp.inData
        ∧ (TestCase.mk (str "sample-1") (str "1") (str "in\n") (str "1") (str "out\n")).output_data
          = smp.outData :=
  (c8_content_amended
    ⟨fun _ => [AojSample.mk 1 (str "in\n") (str "out\n")], fun _ => [], fun _ => [],
     fun _ _ => [], fun _ _ => []⟩
    ⟨str "2256"⟩
    (TestCase.mk (str "sample-1") (str "1") (str "in\n") (str "1") (str "out\n"))
    (by decide)).1 (by decide)

theorem takeWhile_cons_neg {p : Char → Bool} {a : Char} {l : Str} (h : p a = false) :
    (a :: l).takeWhile p = [] := by
  simp [List.takeWhile_cons, h]

theorem dropWhile_cons_neg {p : Char → Bool} {a : Char} {l : Str} (h : p a = false) :
    (a :: l).dropWhile p = a :: l := by
  simp [List.dropWhile_cons, h]

theorem takeWhile_all {p : Char → Bool} {l : Str} (h : ∀ c ∈ l, p c = true) :
    l.takeWhile p = l := by
  induction l with
  | nil => rfl
  | cons a l ih =>
    have := h a (by simp)
    simp [List.takeWhile_cons, this, ih fun c hc => h c (by simp [hc])]

theorem dropWhile_all {p : Char → Bool} {l : Str} (h : ∀ c ∈ l, p c = true) :
    l.dropWhile p = [] := by
  induction l with
  | nil => rfl
  | cons a l ih =>
    have := h a (by simp)
    simp [List.dropWhile_cons, this, ih fun c hc => h c (by simp [hc])]

theorem takeWhile_all_append {p : Char → Bool} {xs ys : Str} (h : ∀ c ∈ xs, p c = true) :
    (xs ++ ys).takeWhile p = xs ++ ys.takeWhile p := by
  induction xs with
  | nil => rfl
  | cons a xs ih =>
    have := h a (by simp)
    simp [List.takeWhile_cons, this, ih fun c hc => h c (by simp [hc])]

theorem dropWhile_all_append {p : Char → Bool} {xs ys : Str} (h : ∀ c ∈ xs, p c = true) :
    (xs ++ ys).dropWhile p = ys.dropWhile p := by
  induction xs with
  | nil => rfl
  | cons a xs ih =>
    have := h a (by simp)
    simp [List.dropWhile_cons, this, ih fun c hc => h c (by simp [hc])]

theorem map_fixed {f : Char → Char} {l : Str} (h : ∀ c ∈ l, f c = c) : l.map f = l := by
  induction l with
  | nil => rfl
  | cons a l ih =>
    simp [h a (by simp), ih fun c hc => h c (by simp [hc])]

theorem splitScheme_http (rest : Str) :
    splitScheme (str "http" ++ ':' :: rest) = (str "http", rest) := by
  have h1 : breakAt ':' (str "http" ++ ':' :: rest) = (str "http", some rest) :=
    breakAt_append (by decide)
  simp [splitScheme, h1, (by decide : isValidScheme (str "http") = true),
    (by decide : (str "http").map Char.toLower = str "http")]

theorem splitScheme_https (rest : Str) :
    splitScheme (str "https" ++ ':' :: rest) = (str "https", rest) := by
  have h1 : breakAt ':' (str "https" ++ ':' :: rest) = (str "https", some rest) :=
    breakAt_append (by decide)
  simp [splitScheme, h1, (by decide : isValidScheme (str "https") = true),
    (by decide : (str "https").map Char.toLower = str "https")]

theorem splitNetloc_host {host rest : Str} (hh : ∀ a ∈ host, a ∉ str "/?#")
    (hr : rest = [] ∨ ∃ b ys, rest = b :: ys ∧ b ∈ str "/?#") :
    splitNetloc ('/' :: '/' :: (host ++ rest)) = (host, rest) := by
  show spanNotIn (str "/?#") (host ++ rest) = (host, rest)
  rcases hr with rfl | ⟨b, ys, rfl, hb⟩
  · simpa using spanNotIn_all hh
  · exact spanNotIn_append hh hb

theorem urlparse_build {url rest1 rest2 pre3 schemeStr host frag path query : Str}
    (h1 : splitScheme url = (schemeStr, rest1))
    (h2 : splitNetloc rest1 = (host, rest2))
    (h3 : breakAt '#' rest2 = (pre3, some frag)
      ∨ breakAt '#' rest2 = (pre3, none) ∧ frag = [])
    (h4 : breakAt '?' pre3 = (path, some query)
      ∨ breakAt '?' pre3 = (path, none) ∧ query = []) :
    urlparse url = ⟨schemeStr, host, path, query, frag⟩ := by
  rcases h3 with h3 | ⟨h3, rfl⟩ <;> rcases h4 with h4 | ⟨h4, rfl⟩ <;>
    simp [urlparse, h1, h2, h3, h4]

theorem splitAll_joinSegs : ∀ {segs : List Str}, segs ≠ [] → (∀ s ∈ segs, '/' ∉ s) →
    splitAll '/' (joinSegs segs) = segs := by
  intro segs
  induction segs with
  | nil => intro hne; cases hne rfl
  | cons s ss ih =>
    intro _ h
    match ss with
    | [] => exact splitAll_not_mem (h s (by simp))
    | s2 :: ss2 =>
      show splitAll '/' (s ++ '/' :: joinSegs (s2 :: ss2)) = s :: s2 :: ss2
      rw [splitAll_append (h s (by simp)),
        ih (by simp) fun x hx => h x (List.mem_cons_of_mem _ hx)]

theorem keepSeg_true {s : Str} (h1 : s ≠ []) (h2 : s ≠ str ".") : keepSeg s = true := by
  simp [keepSeg, h1, h2]

/-- A path of the canonical form `/seg1/…/segN` with plain segments is a
fixed point of `normpath`. -/
theorem normpath_normal (segs : List Str) (hne : segs ≠ [])
    (h : ∀ s ∈ segs, s ≠ [] ∧ s ≠ str "." ∧ s ≠ str ".." ∧ '/' ∉ s) :
    normpath ('/' :: joinSegs segs) = '/' :: joinSegs segs := by
  refine normpath_abs_eq rfl ?_ fun s hs => (h s hs).2.2.1
  have hsplit : splitAll '/' ('/' :: joinSegs segs)
      = [] :: splitAll '/' (joinSegs segs) := by
    simp [splitAll]
  rw [hsplit, splitAll_joinSegs hne fun s hs => (h s hs).2.2.2]
  rw [List.filter_cons]
  rw [if_neg (by decide)]
  exact List.filter_eq_self.mpr fun s hs => keepSeg_true (h s hs).1 (h s hs).2.1

theorem all_digit_seg_ok {ds : Str} (hne : ds ≠ []) (h : ∀ c ∈ ds, c.isDigit = true) :
    ds ≠ [] ∧ ds ≠ str "." ∧ ds ≠ str ".." ∧ '/' ∉ ds := by
  refine ⟨hne, ?_, ?_, ?_⟩
  · rintro rfl; exact absurd (h '.' (by decide)) (by decide)
  · rintro rfl; exact absurd (h '.' (by decide)) (by decide)
  · intro hm; exact absurd (h '/' hm) (by decide)

theorem alphanum_not_special {c : Char} (h : c.isAlphanum = true) :
    c.toNat ≠ 46 ∧ c.toNat ≠ 47 ∧ c.toNat ≠ 35 ∧ c.toNat ≠ 63 := by
  have := isAlphanum_toNat h
  omega

theorem alphanum_seg_ok {s : Str} (hne : s ≠ []) (h : ∀ c ∈ s, c.isAlphanum = true) :
    s ≠ [] ∧ s ≠ str "." ∧ s ≠ str ".." ∧ '/' ∉ s := by
  refine ⟨hne, ?_, ?_, ?_⟩
  · rintro rfl; exact (alphanum_not_special (h '.' (by decide))).1 (by decide)
  · rintro rfl; exact (alphanum_not_special (h '.' (by decide))).1 (by decide)
  · intro hm; exact (alphanum_not_special (h '/' hm)).2.1 (by decide)

theorem slug_toNat {c : Char} (h : slugChar c = true) :
    c.toNat ≠ 46 ∧ c.toNat ≠ 47 ∧ c.toNat ≠ 35 ∧ c.toNat ≠ 63 := by
  rcases Bool.or_eq_true _ _ |>.mp h with h2 | h2
  · exact alphanum_not_special h2
  · have : c = '-' := by simpa using h2
    subst this
    decide

theorem slug_seg_ok {s : Str} (hne : s ≠ []) (h : ∀ c ∈ s, slugChar c = true) :
    s ≠ [] ∧ s ≠ str "." ∧ s ≠ str ".." ∧ '/' ∉ s := by
  refine ⟨hne, ?_, ?_, ?_⟩
  · rintro rfl; exact (slug_toNat (h '.' (by decide))).1 (by decide)
  · rintro rfl; exact (slug_toNat (h '.' (by decide))).1 (by decide)
  · intro hm; exact (slug_toNat (h '/' hm)).2.1 (by decide)

theorem rt_anarchy_service :
    AnarchyGolfService.from_url (AnarchyGolfService.get_url ⟨⟩) = some ⟨⟩ := by decide

theorem rt_cf_service :
    CodeforcesService.from_url (CodeforcesService.get_url ⟨⟩) = some ⟨⟩ := by decide

theorem rt_hr_service :
    HackerRankService.from_url (HackerRankService.get_url ⟨⟩) = some ⟨⟩ := by decide

theorem rt_aoj_service :
    AOJService.from_url (AOJService.get_url ⟨⟩) = some ⟨⟩ := by decide

theorem rt_anarchy_problem {pid : Str} (h1 : pid ≠ []) (h2 : '#' ∉ pid) :
    AnarchyGolfProblem.from_url (AnarchyGolfProblem.get_url ⟨pid⟩) = some ⟨pid⟩ := by
  show AnarchyGolfProblem.from_url
      (str "http" ++ ':' :: '/' :: '/'
        :: (str "golf.shinh.org" ++ (str "/p.rb" ++ '?' :: pid))) = some ⟨pid⟩
  have hc : breakAt '#' (str "/p.rb" ++ '?' :: pid) = (str "/p.rb" ++ '?' :: pid, none) := by
    refine breakAt_not_mem ?_
    intro hm
    rcases List.mem_append.mp hm with hm | hm
    · exact absurd hm (by decide)
    · rcases List.mem_cons.mp hm with hm | hm
      · exact absurd hm (by decide)
      · exact h2 hm
  have hup : urlparse (str "http" ++ ':' :: '/' :: '/'
      :: (str "golf.shinh.org" ++ (str "/p.rb" ++ '?' :: pid)))
      = ⟨str "http", str "golf.shinh.org", str "/p.rb", pid, []⟩ :=
    urlparse_build (splitScheme_http _)
      (splitNetloc_host (by decide) (Or.inr ⟨'/', str "p.rb" ++ '?' :: pid, rfl, by decide⟩))
      (Or.inr ⟨hc, rfl⟩) (Or.inl (breakAt_append (by decide)))
  have hnorm : normpath (str "/p.rb") = str "/p.rb" := by decide
  simp [AnarchyGolfProblem.from_url, hup, schemeOk, h1, hnorm]

theorem intToChars_nonneg {i : Int} (h : 0 ≤ i) : intToChars i = natToChars i.toNat := by
  rw [intToChars, if_neg (by omega)]

/-- The second character of a two-character index must be a nonzero digit
for the URL matcher to accept it. -/
def indexTailOk : Str → Prop
  | [_, d] => '1' ≤ d ∧ d ≤ '9'
  | _ => True

instance : ∀ s : Str, Decidable (indexTailOk s)
  | [] => by unfold indexTailOk; infer_instance
  | [_] => by unfold indexTailOk; infer_instance
  | [_, _] => by unfold indexTailOk; infer_instance
  | _ :: _ :: _ :: _ => by unfold indexTailOk; infer_instance

theorem indexOk_alphanum {idx : Str} (h : indexOk idx) : ∀ c ∈ idx, c.isAlphanum = true := by
  match idx, h with
  | [c], h =>
    intro x hx
    rcases List.mem_singleton.mp hx with rfl
    have h2 : x.isUpper = true := h
    simp [Char.isAlphanum, Char.isAlpha, h2]
  | [c, d], h =>
    intro x hx
    have h1 : c.isUpper = true := h.1
    have hd : d.isDigit = true := h.2
    rcases List.mem_cons.mp hx with rfl | hx
    · simp [Char.isAlphanum, Char.isAlpha, h1]
    · rcases List.mem_singleton.mp hx with rfl
      simp [Char.isAlphanum, hd]

theorem indexOk_ne_nil {idx : Str} (h : indexOk idx) : idx ≠ [] := by
  match idx, h with
  | [c], _ => simp
  | [c, d], _ => simp

theorem matchIndexEnd_ok {idx : Str} (h : indexOk idx) (h2 : indexTailOk idx) :
    matchIndexEnd idx = some idx := by
  match idx, h, h2 with
  | [c], h, _ =>
    show (if c = '0' then some ['0'] else if c.isAlpha then some [c] else none) = some [c]
    have hc0 : c ≠ '0' := ne_of_toNat_ne
      (by rw [show ('0').toNat = 48 from rfl]; have := isUpper_toNat h; omega)
    rw [if_neg hc0, if_pos (isUpper_isAlpha h)]
  | [c, d], h, h2 =>
    show (if c.isAlpha = true ∧ '1' ≤ d ∧ d ≤ '9' then some [c, d] else none) = some [c, d]
    exact if_pos ⟨isUpper_isAlpha h.1, h2⟩

theorem normIndex_fixed {idx : Str} (h : indexOk idx) : normIndex idx = idx := by
  have hmap : idx.map Char.toUpper = idx := by
    refine map_fixed ?_
    match idx, h with
    | [c], h =>
      intro x hx
      rcases List.mem_singleton.mp hx with rfl
      exact isUpper_toUpper h
    | [c, d], h =>
      intro x hx
      rcases List.mem_cons.mp hx with rfl | hx
      · exact isUpper_toUpper h.1
      · rcases List.mem_singleton.mp hx with rfl
        exact isDigit_toUpper h.2
  have hne : idx ≠ ['0'] := by
    match idx, h with
    | [c], h =>
      have hup : c.isUpper = true := h
      have : c ≠ '0' := ne_of_toNat_ne
        (by rw [show ('0').toNat = 48 from rfl]; have := isUpper_toNat hup; omega)
      simp [this]
    | [c, d], h => simp
  rw [normIndex, if_neg hne, hmap]

theorem matchLead_cons_self {a : Char} (ps cs : Str) :
    matchLead (a :: ps) (a :: cs) = matchLead ps cs := by
  simp [matchLead]

theorem takeDigitsThen_eval {l0 : Char} {lit2 ds tail : Str}
    (hds : ∀ c ∈ ds, c.isDigit = true) (hne : ds ≠ []) (hl0 : l0.isDigit = false) :
    takeDigitsThen (l0 :: lit2) (ds ++ ((l0 :: lit2) ++ tail)) = some (charsToNat ds, tail) := by
  rw [takeDigitsThen]
  rw [takeWhile_all_append hds, dropWhile_all_append hds, List.cons_append]
  rw [takeWhile_cons_neg hl0, dropWhile_cons_neg hl0]
  rw [List.append_nil]
  rw [if_neg hne, matchLead_cons_self, matchLead_append]
  rfl

theorem takeDigitsStar_eval {l0 : Char} {lit2 ds tail : Str}
    (hds : ∀ c ∈ ds, c.isDigit = true) (hne : ds ≠ []) (hl0 : l0.isDigit = false) :
    takeDigitsStarThen (l0 :: lit2) (ds ++ ((l0 :: lit2) ++ tail))
      = some (some (charsToNat ds), tail) := by
  rw [takeDigitsStarThen]
  rw [takeWhile_all_append hds, dropWhile_all_append hds, List.cons_append]
  rw [takeWhile_cons_neg hl0, dropWhile_cons_neg hl0]
  rw [List.append_nil]
  rw [matchLead_cons_self, matchLead_append]
  simp [hne]

theorem rt_aoj_problem {pid : Str} (h1 : pid ≠ [])
    (hh : '#' ∉ pid) (ha : '&' ∉ pid) (hp : '+' ∉ pid) (hpc : '%' ∉ pid) :
    AOJProblem.from_url (AOJProblem.get_url ⟨pid⟩) = some ⟨pid⟩ := by
  show AOJProblem.from_url
      (str "http" ++ ':' :: '/' :: '/'
        :: (str "judge.u-aizu.ac.jp"
          ++ (str "/onlinejudge/description.jsp" ++ '?' :: (str "id" ++ '=' :: pid))))
    = some ⟨pid⟩
  have hc : breakAt '#'
      (str "/onlinejudge/description.jsp" ++ '?' :: (str "id" ++ '=' :: pid))
      = (str "/onlinejudge/description.jsp" ++ '?' :: (str "id" ++ '=' :: pid), none) := by
    refine breakAt_not_mem ?_
    intro hm
    rcases List.mem_append.mp hm with hm | hm
    · exact absurd hm (by decide)
    rcases List.mem_cons.mp hm with hm | hm
    · exact absurd hm (by decide)
    rcases List.mem_append.mp hm with hm | hm
    · exact absurd hm (by decide)
    rcases List.mem_cons.mp hm with hm | hm
    · exact absurd hm (by decide)
    · exact hh hm
  have hup : urlparse (str "http" ++ ':' :: '/' :: '/'
      :: (str "judge.u-aizu.ac.jp"
        ++ (str "/onlinejudge/description.jsp" ++ '?' :: (str "id" ++ '=' :: pid))))
      = ⟨str "http", str "judge.u-aizu.ac.jp", str "/onlinejudge/description.jsp",
          str "id" ++ '=' :: pid, []⟩ :=
    urlparse_build (splitScheme_http _)
      (splitNetloc_host (by decide)
        (Or.inr ⟨'/', str "onlinejudge/description.jsp" ++ '?' :: (str "id" ++ '=' :: pid),
          rfl, by decide⟩))
      (Or.inr ⟨hc, rfl⟩) (Or.inl (breakAt_append (by decide)))
  have hsplit : splitAll '&' (str "id" ++ '=' :: pid) = [str "id" ++ '=' :: pid] := by
    refine splitAll_not_mem ?_
    intro hm
    rcases List.mem_append.mp hm with hm | hm
    · exact absurd hm (by decide)
    rcases List.mem_cons.mp hm with hm | hm
    · exact absurd hm (by decide)
    · exact ha hm
  have hfield : str "id" ++ '=' :: pid ≠ [] := by simp
  have hbreak : breakAt '=' (str "id" ++ '=' :: pid) = (str "id", some pid) :=
    breakAt_append (by decide)
  have hqsl : parse_qsl (str "id" ++ '=' :: pid) = [(str "id", pid)] := by
    rw [parse_qsl, hsplit]
    simp [hbreak, hfield, h1, unquote_plus_id hp hpc,
      (by decide : unquote_plus (str "id") = str "id")]
  have hqs : parse_qs (str "id" ++ '=' :: pid) = [(str "id", [pid])] := by
    rw [parse_qs, hqsl]
    rfl
  have hdesc : aojTryDescription
      ⟨str "http", str "judge.u-aizu.ac.jp", str "/onlinejudge/description.jsp",
        str "id" ++ '=' :: pid, []⟩ = some ⟨pid⟩ := by
    simp [aojTryDescription, hqs, qsGet,
      (by decide : normpath (str "/onlinejudge/description.jsp")
        = str "/onlinejudge/description.jsp")]
  simp [AOJProblem.from_url, hup, hdesc, schemeOk]

theorem rt_aoj_arena {a al : Str} (ha : '/' ∉ a) (hal : '/' ∉ al) (hok : alphabetOk al) :
    AOJArenaProblem.from_url (AOJArenaProblem.get_url (AOJArenaProblem.make a al))
      = some (AOJArenaProblem.make a al) := by
  simp only [AOJArenaProblem.get_url, AOJArenaProblem.make, List.append_assoc]
  show AOJArenaProblem.from_url
      (str "https" ++ ':' :: '/' :: '/'
        :: (str "onlinejudge.u-aizu.ac.jp"
          ++ (str "/services/room.html" ++ '#' :: (a ++ (str "/problems/" ++ al)))))
    = some (AOJArenaProblem.mk a al none)
  have hup : urlparse (str "https" ++ ':' :: '/' :: '/'
      :: (str "onlinejudge.u-aizu.ac.jp"
        ++ (str "/services/room.html" ++ '#' :: (a ++ (str "/problems/" ++ al)))))
      = ⟨str "https", str "onlinejudge.u-aizu.ac.jp", str "/services/room.html",
          [], a ++ (str "/problems/" ++ al)⟩ :=
    urlparse_build (splitScheme_https _)
      (splitNetloc_host (by decide)
        (Or.inr ⟨'/', str "services/room.html" ++ '#' :: (a ++ (str "/problems/" ++ al)),
          rfl, by decide⟩))
      (Or.inl (breakAt_append (by decide)))
      (Or.inr ⟨breakAt_not_mem (by decide), rfl⟩)
  have hsplit : splitAll '/' (a ++ (str "/problems/" ++ al)) = [a, str "problems", al] := by
    rw [show a ++ (str "/problems/" ++ al) = a ++ '/' :: (str "problems" ++ '/' :: al)
      from rfl]
    rw [splitAll_append ha, splitAll_append (by decide), splitAll_not_mem hal]
  have hmap : al.map Char.toUpper = al := by
    refine map_fixed ?_
    intro c hc
    obtain ⟨pre, post, hdecomp⟩ := isSub_decomp hok
    have hmem : c ∈ str "ABCDEFGHIJKLMNOPQRSTUVWXYZ" := by
      rw [hdecomp]
      simp only [List.append_assoc, List.mem_append]
      exact Or.inr (Or.inl hc)
    have hAZ : ∀ x ∈ str "ABCDEFGHIJKLMNOPQRSTUVWXYZ", x.toUpper = x := by decide
    exact hAZ c hmem
  simp [AOJArenaProblem.from_url, hup, hsplit, hmap, schemeOk, AOJArenaProblem.make,
    (by decide : normpath (str "/services/room.html") = str "/services/room.html")]

theorem slug_not_mem {s : Str} (h : ∀ c ∈ s, slugChar c = true) :
    '#' ∉ s ∧ '?' ∉ s := by
  constructor
  · intro hm; exact (slug_toNat (h '#' hm)).2.2.1 (by decide)
  · intro hm; exact (slug_toNat (h '?' hm)).2.2.2 (by decide)

theorem rt_hackerrank {cs ch : Str} (hcs1 : cs ≠ []) (hcs2 : ∀ c ∈ cs, slugChar c = true)
    (hch1 : ch ≠ []) (hch2 : ∀ c ∈ ch, slugChar c = true) :
    HackerRankProblem.from_url (HackerRankProblem.get_url ⟨cs, ch⟩) = some ⟨cs, ch⟩ := by
  by_cases hmaster : (⟨cs, ch⟩ : HackerRankProblem).contest_slug = str "master"
  · simp only [HackerRankProblem.get_url]
    rw [if_pos hmaster]
    have hmaster2 : cs = str "master" := hmaster
    subst hmaster2
    show HackerRankProblem.from_url
        (str "https" ++ ':' :: '/' :: '/'
          :: (str "www.hackerrank.com" ++ (str "/challenges/" ++ ch)))
      = some ⟨str "master", ch⟩
    have hfree : '#' ∉ (str "/challenges/" ++ ch) ∧ '?' ∉ (str "/challenges/" ++ ch) := by
      constructor <;>
        · intro hm
          rcases List.mem_append.mp hm with hm | hm
          · exact absurd hm (by decide)
          · first
            | exact (slug_not_mem hch2).1 hm
            | exact (slug_not_mem hch2).2 hm
    have hup : urlparse (str "https" ++ ':' :: '/' :: '/'
        :: (str "www.hackerrank.com" ++ (str "/challenges/" ++ ch)))
        = ⟨str "https", str "www.hackerrank.com", str "/challenges/" ++ ch, [], []⟩ :=
      urlparse_build (splitScheme_https _)
        (splitNetloc_host (by decide)
          (Or.inr ⟨'/', str "challenges/" ++ ch, rfl, by decide⟩))
        (Or.inr ⟨breakAt_not_mem hfree.1, rfl⟩)
        (Or.inr ⟨breakAt_not_mem hfree.2, rfl⟩)
    have hnorm : normpath (str "/challenges/" ++ ch) = str "/challenges/" ++ ch :=
      normpath_normal [str "challenges", ch] (by simp) (by
        intro s hs
        rcases List.mem_cons.mp hs with rfl | hs
        · exact ⟨by decide, by decide, by decide, by decide⟩
        · rcases List.mem_singleton.mp hs with rfl
          exact slug_seg_ok hch1 hch2)
    have hm1 : matchLead (str "/challenges/") (str "/challenges/" ++ ch) = some ch :=
      matchLead_append _ _
    have htc : hrTryChallenges (str "/challenges/" ++ ch) = some ⟨str "master", ch⟩ := by
      have step : hrTryChallenges (str "/challenges/" ++ ch)
          = (if ch.takeWhile slugChar = [] then none
             else if hrTailOk (ch.dropWhile slugChar)
               then some (⟨str "master", ch.takeWhile slugChar⟩ : HackerRankProblem)
             else none) := by
        unfold hrTryChallenges
        rw [hm1]
        rfl
      rw [step, takeWhile_all hch2, dropWhile_all hch2, if_neg hch1,
        if_pos (by decide : hrTailOk [] = true)]
    have hnone : hrTryContests (str "/challenges/" ++ ch) = none := rfl
    simp [HackerRankProblem.from_url, hup, hnorm, hnone, htc, schemeOk]
  · simp only [HackerRankProblem.get_url]
    rw [if_neg hmaster]
    simp only [List.append_assoc]
    show HackerRankProblem.from_url
        (str "https" ++ ':' :: '/' :: '/'
          :: (str "www.hackerrank.com"
            ++ (str "/contests/" ++ (cs ++ (str "/challenges/" ++ ch)))))
      = some ⟨cs, ch⟩
    have hfree : ∀ x : Char, x = '#' ∨ x = '?' →
        x ∉ (str "/contests/" ++ (cs ++ (str "/challenges/" ++ ch))) := by
      rintro x hx hm
      rcases List.mem_append.mp hm with hm | hm
      · rcases hx with rfl | rfl <;> exact absurd hm (by decide)
      rcases List.mem_append.mp hm with hm | hm
      · rcases hx with rfl | rfl
        · exact (slug_toNat (hcs2 _ hm)).2.2.1 (by decide)
        · exact (slug_toNat (hcs2 _ hm)).2.2.2 (by decide)
      rcases List.mem_append.mp hm with hm | hm
      · rcases hx with rfl | rfl <;> exact absurd hm (by decide)
      · rcases hx with rfl | rfl
        · exact (slug_toNat (hch2 _ hm)).2.2.1 (by decide)
        · exact (slug_toNat (hch2 _ hm)).2.2.2 (by decide)
    have hup : urlparse (str "https" ++ ':' :: '/' :: '/'
        :: (str "www.hackerrank.com"
          ++ (str "/contests/" ++ (cs ++ (str "/challenges/" ++ ch)))))
        = ⟨str "https", str "www.hackerrank.com",
            str "/contests/" ++ (cs ++ (str "/challenges/" ++ ch)), [], []⟩ :=
      urlparse_build (splitScheme_https _)
        (splitNetloc_host (by decide)
          (Or.inr ⟨'/', str "contests/" ++ (cs ++ (str "/challenges/" ++ ch)), rfl, by decide⟩))
        (Or.inr ⟨breakAt_not_mem (hfree '#' (Or.inl rfl)), rfl⟩)
        (Or.inr ⟨breakAt_not_mem (hfree '?' (Or.inr rfl)), rfl⟩)
    have hnorm : normpath (str "/contests/" ++ (cs ++ (str "/challenges/" ++ ch)))
        = str "/contests/" ++ (cs ++ (str "/challenges/" ++ ch)) :=
      normpath_normal [str "contests", cs, str "challenges", ch] (by simp) (by
        intro s hs
        rcases List.mem_cons.mp hs with rfl | hs
        · exact ⟨by decide, by decide, by decide, by decide⟩
        rcases List.mem_cons.mp hs with rfl | hs
        · exact slug_seg_ok hcs1 hcs2
        rcases List.mem_cons.mp hs with rfl | hs
        · exact ⟨by decide, by decide, by decide, by decide⟩
        · rcases List.mem_singleton.mp hs with rfl
          exact slug_seg_ok hch1 hch2)
    have h1 : matchLead (str "/contests/")
        (str "/contests/" ++ (cs ++ (str "/challenges/" ++ ch)))
        = some (cs ++ (str "/challenges/" ++ ch)) := matchLead_append _ _
    have h2 : (cs ++ (str "/challenges/" ++ ch)).takeWhile slugChar = cs := by
      rw [show str "/challenges/" ++ ch = '/' :: (str "challenges/" ++ ch) from rfl]
      rw [takeWhile_all_append hcs2, takeWhile_cons_neg (by decide)]
      exact List.append_nil cs
    have h3 : (cs ++ (str "/challenges/" ++ ch)).dropWhile slugChar
        = '/' :: (str "challenges/" ++ ch) := by
      rw [show str "/challenges/" ++ ch = '/' :: (str "challenges/" ++ ch) from rfl]
      rw [dropWhile_all_append hcs2, dropWhile_cons_neg (by decide)]
    have h4 : matchLead (str "/challenges/") ('/' :: (str "challenges/" ++ ch)) = some ch := by
      rw [show (str "/challenges/" : Str) = '/' :: str "challenges/" from rfl,
        matchLead_cons_self, matchLead_append]
    have htc : hrTryContests (str "/contests/" ++ (cs ++ (str "/challenges/" ++ ch)))
        = some ⟨cs, ch⟩ := by
      unfold hrTryContests
      rw [h1, Option.some_bind]
      simp only [h2, h3]
      rw [if_neg hcs1, h4, Option.some_bind]
      simp only [takeWhile_all hch2, dropWhile_all hch2]
      rw [if_neg hch1, if_pos (by decide : hrTailOk [] = true)]
    simp [HackerRankProblem.from_url, hup, hnorm, htc, schemeOk]

theorem rt_cf_contest {cid : Int} (k : CFContestKind) (h : 0 ≤ cid) :
    CodeforcesContest.from_url (CodeforcesContest.get_url ⟨cid, k⟩) = some ⟨cid, k⟩ := by
  have hint : intToChars cid = natToChars cid.toNat := intToChars_nonneg h
  have hds : ∀ c ∈ natToChars cid.toNat, c.isDigit = true := natToChars_all_digit _
  have hdsne : natToChars cid.toNat ≠ [] := natToChars_ne_nil _
  have hparse : charsToNat (natToChars cid.toNat) = cid.toNat := charsToNat_natToChars _
  have hofNat : Int.ofNat cid.toNat = cid := Int.toNat_of_nonneg h
  cases k with
  | contest =>
    simp only [CodeforcesContest.get_url, CFContestKind.chars, hint, List.append_assoc]
    show CodeforcesContest.from_url
        (str "https" ++ ':' :: '/' :: '/'
          :: (str "codeforces.com" ++ (str "/contest/" ++ natToChars cid.toNat)))
      = some ⟨cid, CFContestKind.contest⟩
    have hnof : '#' ∉ (str "/contest/" ++ natToChars cid.toNat) := by
      intro hm
      rcases List.mem_append.mp hm with hm | hm
      · exact absurd hm (by decide)
      · exact (digit_not_special (hds _ hm)).2.1 rfl
    have hnoq : '?' ∉ (str "/contest/" ++ natToChars cid.toNat) := by
      intro hm
      rcases List.mem_append.mp hm with hm | hm
      · exact absurd hm (by decide)
      · exact (digit_not_special (hds _ hm)).2.2.1 rfl
    have hup : urlparse (str "https" ++ ':' :: '/' :: '/'
        :: (str "codeforces.com" ++ (str "/contest/" ++ natToChars cid.toNat)))
        = ⟨str "https", str "codeforces.com",
            str "/contest/" ++ natToChars cid.toNat, [], []⟩ :=
      urlparse_build (splitScheme_https _)
        (splitNetloc_host (by decide)
          (Or.inr ⟨'/', str "contest/" ++ natToChars cid.toNat, rfl, by decide⟩))
        (Or.inr ⟨breakAt_not_mem hnof, rfl⟩)
        (Or.inr ⟨breakAt_not_mem hnoq, rfl⟩)
    have hnorm : normpath (str "/contest/" ++ natToChars cid.toNat)
        = str "/contest/" ++ natToChars cid.toNat :=
      normpath_normal [str "contest", natToChars cid.toNat] (by simp) (by
        intro s hs
        rcases List.mem_cons.mp hs with rfl | hs
        · exact ⟨by decide, by decide, by decide, by decide⟩
        · rcases List.mem_singleton.mp hs with rfl
          exact all_digit_seg_ok hdsne hds)
    have hm0 : matchLead ('/' :: str "contest" ++ ['/'])
        (str "/contest/" ++ natToChars cid.toNat) = some (natToChars cid.toNat) :=
      matchLead_append _ _
    have hcp : cfContestPath (str "contest") (str "/contest/" ++ natToChars cid.toNat)
        = some (Int.ofNat (charsToNat (natToChars cid.toNat))) := by
      have step : cfContestPath (str "contest") (str "/contest/" ++ natToChars cid.toNat)
          = (if (natToChars cid.toNat).takeWhile Char.isDigit = [] then none
             else some (Int.ofNat
               (charsToNat ((natToChars cid.toNat).takeWhile Char.isDigit)))) := by
        unfold cfContestPath
        rw [hm0]
      rw [step, takeWhile_all hds, if_neg hdsne]
    simp [CodeforcesContest.from_url, hup, hnorm, hcp, hparse, hofNat, schemeOk,
      CodeforcesContest.make]
    exact ⟨by decide, h⟩
  | gym =>
    simp only [CodeforcesContest.get_url, CFContestKind.chars, hint, List.append_assoc]
    show CodeforcesContest.from_url
        (str "https" ++ ':' :: '/' :: '/'
          :: (str "codeforces.com" ++ (str "/gym/" ++ natToChars cid.toNat)))
      = some ⟨cid, CFContestKind.gym⟩
    have hnof : '#' ∉ (str "/gym/" ++ natToChars cid.toNat) := by
      intro hm
      rcases List.mem_append.mp hm with hm | hm
      · exact absurd hm (by decide)
      · exact (digit_not_special (hds _ hm)).2.1 rfl
    have hnoq : '?' ∉ (str "/gym/" ++ natToChars cid.toNat) := by
      intro hm
      rcases List.mem_append.mp hm with hm | hm
      · exact absurd hm (by decide)
      · exact (digit_not_special (hds _ hm)).2.2.1 rfl
    have hup : urlparse (str "https" ++ ':' :: '/' :: '/'
        :: (str "codeforces.com" ++ (str "/gym/" ++ natToChars cid.toNat)))
        = ⟨str "https", str "codeforces.com", str "/gym/" ++ natToChars cid.toNat, [], []⟩ :=
      urlparse_build (splitScheme_https _)
        (splitNetloc_host (by decide)
          (Or.inr ⟨'/', str "gym/" ++ natToChars cid.toNat, rfl, by decide⟩))
        (Or.inr ⟨breakAt_not_mem hnof, rfl⟩)
        (Or.inr ⟨breakAt_not_mem hnoq, rfl⟩)
    have hnorm : normpath (str "/gym/" ++ natToChars cid.toNat)
        = str "/gym/" ++ natToChars cid.toNat :=
      normpath_normal [str "gym", natToChars cid.toNat] (by simp) (by
        intro s hs
        rcases List.mem_cons.mp hs with rfl | hs
        · exact ⟨by decide, by decide, by decide, by decide⟩
        · rcases List.mem_singleton.mp hs with rfl
          exact all_digit_seg_ok hdsne hds)
    have hnone : cfContestPath (str "contest") (str "/gym/" ++ natToChars cid.toNat)
        = none := rfl
    have hm0 : matchLead ('/' :: str "gym" ++ ['/'])
        (str "/gym/" ++ natToChars cid.toNat) = some (natToChars cid.toNat) :=
      matchLead_append _ _
    have hcp : cfContestPath (str "gym") (str "/gym/" ++ natToChars cid.toNat)
        = some (Int.ofNat (charsToNat (natToChars cid.toNat))) := by
      have step : cfContestPath (str "gym") (str "/gym/" ++ natToChars cid.toNat)
          = (if (natToChars cid.toNat).takeWhile Char.isDigit = [] then none
             else some (Int.ofNat
               (charsToNat ((natToChars cid.toNat).takeWhile Char.isDigit)))) := by
        unfold cfContestPath
        rw [hm0]
      rw [step, takeWhile_all hds, if_neg hdsne]
    simp [CodeforcesContest.from_url, hup, hnorm, hnone, hcp, hparse, hofNat, schemeOk,
      CodeforcesContest.make]
    exact ⟨by decide, h⟩

theorem optIntToChars_ofNat (n : Nat) : optIntToChars (some (Int.ofNat n)) = natToChars n := by
  have h : ¬ (Int.ofNat n < 0) := by rw [Int.ofNat_eq_coe]; omega
  rw [optIntToChars, intToChars, if_neg h]
  rfl

set_option maxHeartbeats 1600000 in
theorem rt_cf_problem (p : CodeforcesProblem) (hcid : 0 ≤ p.contest_id)
    (hidx : indexOk p.index) (htail : indexTailOk p.index)
    (hedu : p.kind = CFKind.edu → ∃ c0 l0 s0 : Nat,
      p.course = some (Int.ofNat c0) ∧ p.lesson = some (Int.ofNat l0)
        ∧ p.step = some (Int.ofNat s0))
    (hnotedu : p.kind ≠ CFKind.edu →
      p.course = none ∧ p.lesson = none ∧ p.step = none) :
    CodeforcesProblem.from_url p.get_url = some p := by
  obtain ⟨cid, idx, kind, course, lesson, step⟩ := p
  have hcid2 : 0 ≤ cid := hcid
  have hidx2 : indexOk idx := hidx
  have htail2 : indexTailOk idx := htail
  have han : ∀ c ∈ idx, c.isAlphanum = true := indexOk_alphanum hidx2
  have hidxne : idx ≠ [] := indexOk_ne_nil hidx2
  have hidxseg := alphanum_seg_ok hidxne han
  have hmi : matchIndexEnd idx = some idx := matchIndexEnd_ok hidx2 htail2
  have hni : normIndex idx = idx := normIndex_fixed hidx2
  have hint : intToChars cid = natToChars cid.toNat := intToChars_nonneg hcid2
  have hds : ∀ c ∈ natToChars cid.toNat, c.isDigit = true := natToChars_all_digit _
  have hdsne : natToChars cid.toNat ≠ [] := natToChars_ne_nil _
  have hparse : charsToNat (natToChars cid.toNat) = cid.toNat := charsToNat_natToChars _
  have hofNat : Int.ofNat cid.toNat = cid := Int.toNat_of_nonneg hcid2
  cases kind with
  | contest =>
    obtain ⟨rfl, rfl, rfl⟩ := hnotedu (by intro h; cases h)
    simp only [CodeforcesProblem.get_url, hint, List.append_assoc]
    show CodeforcesProblem.from_url
        (str "https" ++ ':' :: '/' :: '/'
          :: (str "codeforces.com"
            ++ (str "/contest/"
              ++ (natToChars cid.toNat ++ (str "/problem/" ++ idx)))))
      = some ⟨cid, idx, CFKind.contest, none, none, none⟩
    have hnof : ∀ x : Char, x = '#' ∨ x = '?' →
        x ∉ (str "/contest/" ++ (natToChars cid.toNat ++ (str "/problem/" ++ idx))) := by
      rintro x hx hm
      rcases List.mem_append.mp hm with hm | hm
      · rcases hx with rfl | rfl <;> exact absurd hm (by decide)
      rcases List.mem_append.mp hm with hm | hm
      · rcases hx with rfl | rfl
        · exact (digit_not_special (hds _ hm)).2.1 rfl
        · exact (digit_not_special (hds _ hm)).2.2.1 rfl
      rcases List.mem_append.mp hm with hm | hm
      · rcases hx with rfl | rfl <;> exact absurd hm (by decide)
      · rcases hx with rfl | rfl
        · exact (alphanum_not_special (han _ hm)).2.2.1 (by decide)
        · exact (alphanum_not_special (han _ hm)).2.2.2 (by decide)
    have hup : urlparse (str "https" ++ ':' :: '/' :: '/'
        :: (str "codeforces.com"
          ++ (str "/contest/" ++ (natToChars cid.toNat ++ (str "/problem/" ++ idx)))))
        = ⟨str "https", str "codeforces.com",
            str "/contest/" ++ (natToChars cid.toNat ++ (str "/problem/" ++ idx)), [], []⟩ :=
      urlparse_build (splitScheme_https _)
        (splitNetloc_host (by decide)
          (Or.inr ⟨'/', str "contest/" ++ (natToChars cid.toNat ++ (str "/problem/" ++ idx)),
            rfl, by decide⟩))
        (Or.inr ⟨breakAt_not_mem (hnof '#' (Or.inl rfl)), rfl⟩)
        (Or.inr ⟨breakAt_not_mem (hnof '?' (Or.inr rfl)), rfl⟩)
    have hnorm : normpath
        (str "/contest/" ++ (natToChars cid.toNat ++ (str "/problem/" ++ idx)))
        = str "/contest/" ++ (natToChars cid.toNat ++ (str "/problem/" ++ idx)) :=
      normpath_normal [str "contest", natToChars cid.toNat, str "problem", idx] (by simp) (by
        intro s hs
        rcases List.mem_cons.mp hs with rfl | hs
        · exact ⟨by decide, by decide, by decide, by decide⟩
        rcases List.mem_cons.mp hs with rfl | hs
        · exact all_digit_seg_ok hdsne hds
        rcases List.mem_cons.mp hs with rfl | hs
        · exact ⟨by decide, by decide, by decide, by decide⟩
        · rcases List.mem_singleton.mp hs with rfl
          exact hidxseg)
    have hm1 : matchLead (str "/contest/")
        (str "/contest/" ++ (natToChars cid.toNat ++ (str "/problem/" ++ idx)))
        = some (natToChars cid.toNat ++ (str "/problem/" ++ idx)) := matchLead_append _ _
    have htd : takeDigitsThen (str "/problem/")
        (natToChars cid.toNat ++ (str "/problem/" ++ idx))
        = some (charsToNat (natToChars cid.toNat), idx) :=
      takeDigitsThen_eval hds hdsne (by decide)
    have htry : cfTryContest
        (str "/contest/" ++ (natToChars cid.toNat ++ (str "/problem/" ++ idx)))
        = some (CodeforcesProblem.make (Int.ofNat (charsToNat (natToChars cid.toNat)))
            (normIndex idx) (some CFKind.contest) none none none) := by
      unfold cfTryContest
      rw [hm1, Option.some_bind, htd, Option.some_bind, hmi]
      rfl
    simp [CodeforcesProblem.from_url, hup, hnorm, htry, hni, hparse, hofNat, schemeOk,
      CodeforcesProblem.make]
    exact ⟨by decide, hcid2⟩
  | problemset =>
    obtain ⟨rfl, rfl, rfl⟩ := hnotedu (by intro h; cases h)
    simp only [CodeforcesProblem.get_url, hint, List.append_assoc]
    show CodeforcesProblem.from_url
        (str "https" ++ ':' :: '/' :: '/'
          :: (str "codeforces.com"
            ++ (str "/problemset/problem/" ++ (natToChars cid.toNat ++ '/' :: idx))))
      = some ⟨cid, idx, CFKind.problemset, none, none, none⟩
    have hnof : ∀ x : Char, x = '#' ∨ x = '?' →
        x ∉ (str "/problemset/problem/" ++ (natToChars cid.toNat ++ '/' :: idx)) := by
      rintro x hx hm
      rcases List.mem_append.mp hm with hm | hm
      · rcases hx with rfl | rfl <;> exact absurd hm (by decide)
      rcases List.mem_append.mp hm with hm | hm
      · rcases hx with rfl | rfl
        · exact (digit_not_special (hds _ hm)).2.1 rfl
        · exact (digit_not_special (hds _ hm)).2.2.1 rfl
      rcases List.mem_cons.mp hm with hm | hm
      · rcases hx with rfl | rfl <;> exact absurd hm (by decide)
      · rcases hx with rfl | rfl
        · exact (alphanum_not_special (han _ hm)).2.2.1 (by decide)
        · exact (alphanum_not_special (han _ hm)).2.2.2 (by decide)
    have hup : urlparse (str "https" ++ ':' :: '/' :: '/'
        :: (str "codeforces.com"
          ++ (str "/problemset/problem/" ++ (natToChars cid.toNat ++ '/' :: idx))))
        = ⟨str "https", str "codeforces.com",
            str "/problemset/problem/" ++ (natToChars cid.toNat ++ '/' :: idx), [], []⟩ :=
      urlparse_build (splitScheme_https _)
        (splitNetloc_host (by decide)
          (Or.inr ⟨'/', str "problemset/problem/" ++ (natToChars cid.toNat ++ '/' :: idx),
            rfl, by decide⟩))
        (Or.inr ⟨breakAt_not_mem (hnof '#' (Or.inl rfl)), rfl⟩)
        (Or.inr ⟨breakAt_not_mem (hnof '?' (Or.inr rfl)), rfl⟩)
    have hnorm : normpath
        (str "/problemset/problem/" ++ (natToChars cid.toNat ++ '/' :: idx))
        = str "/problemset/problem/" ++ (natToChars cid.toNat ++ '/' :: idx) :=
      normpath_normal [str "problemset", str "problem", natToChars cid.toNat, idx]
        (by simp) (by
        intro s hs
        rcases List.mem_cons.mp hs with rfl | hs
        · exact ⟨by decide, by decide, by decide, by decide⟩
        rcases List.mem_cons.mp hs with rfl | hs
        · exact ⟨by decide, by decide, by decide, by decide⟩
        rcases List.mem_cons.mp hs with rfl | hs
        · exact all_digit_seg_ok hdsne hds
        · rcases List.mem_singleton.mp hs with rfl
          exact hidxseg)
    have hnone1 : cfTryContest
        (str "/problemset/problem/" ++ (natToChars cid.toNat ++ '/' :: idx)) = none := rfl
    have hm1 : matchLead (str "/problemset/problem/")
        (str "/problemset/problem/" ++ (natToChars cid.toNat ++ '/' :: idx))
        = some (natToChars cid.toNat ++ '/' :: idx) := matchLead_append _ _
    have htd : takeDigitsThen ['/'] (natToChars cid.toNat ++ '/' :: idx)
        = some (charsToNat (natToChars cid.toNat), idx) :=
      takeDigitsThen_eval hds hdsne (by decide)
    have htry : cfTryProblemset
        (str "/problemset/problem/" ++ (natToChars cid.toNat ++ '/' :: idx))
        = some (CodeforcesProblem.make (Int.ofNat (charsToNat (natToChars cid.toNat)))
            (normIndex idx) (some CFKind.problemset) none none none) := by
      unfold cfTryProblemset
      rw [hm1, Option.some_bind, htd, Option.some_bind, hmi]
      rfl
    simp [CodeforcesProblem.from_url, hup, hnorm, hnone1, htry, hni, hparse, hofNat,
      schemeOk, CodeforcesProblem.make]
    exact ⟨by decide, hcid2⟩
  | gym =>
    obtain ⟨rfl, rfl, rfl⟩ := hnotedu (by intro h; cases h)
    simp only [CodeforcesProblem.get_url, hint, List.append_assoc]
    show CodeforcesProblem.from_url
        (str "https" ++ ':' :: '/' :: '/'
          :: (str "codeforces.com"
            ++ (str "/gym/" ++ (natToChars cid.toNat ++ (str "/problem/" ++ idx)))))
      = some ⟨cid, idx, CFKind.gym, none, none, none⟩
    have hnof : ∀ x : Char, x = '#' ∨ x = '?' →
        x ∉ (str "/gym/" ++ (natToChars cid.toNat ++ (str "/problem/" ++ idx))) := by
      rintro x hx hm
      rcases List.mem_append.mp hm with hm | hm
      · rcases hx with rfl | rfl <;> exact absurd hm (by decide)
      rcases List.mem_append.mp hm with hm | hm
      · rcases hx with rfl | rfl
        · exact (digit_not_special (hds _ hm)).2.1 rfl
        · exact (digit_not_special (hds _ hm)).2.2.1 rfl
      rcases List.mem_append.mp hm with hm | hm
      · rcases hx with rfl | rfl <;> exact absurd hm (by decide)
      · rcases hx with rfl | rfl
        · exact (alphanum_not_special (han _ hm)).2.2.1 (by decide)
        · exact (alphanum_not_special (han _ hm)).2.2.2 (by decide)
    have hup : urlparse (str "https" ++ ':' :: '/' :: '/'
        :: (str "codeforces.com"
          ++ (str "/gym/" ++ (natToChars cid.toNat ++ (str "/problem/" ++ idx)))))
        = ⟨str "https", str "codeforces.com",
            str "/gym/" ++ (natToChars cid.toNat ++ (str "/problem/" ++ idx)), [], []⟩ :=
      urlparse_build (splitScheme_https _)
        (splitNetloc_host (by decide)
          (Or.inr ⟨'/', str "gym/" ++ (natToChars cid.toNat ++ (str "/problem/" ++ idx)),
            rfl, by decide⟩))
        (Or.inr ⟨breakAt_not_mem (hnof '#' (Or.inl rfl)), rfl⟩)
        (Or.inr ⟨breakAt_not_mem (hnof '?' (Or.inr rfl)), rfl⟩)
    have hnorm : normpath
        (str "/gym/" ++ (natToChars cid.toNat ++ (str "/problem/" ++ idx)))
        = str "/gym/" ++ (natToChars cid.toNat ++ (str "/problem/" ++ idx)) :=
      normpath_normal [str "gym", natToChars cid.toNat, str "problem", idx] (by simp) (by
        intro s hs
        rcases List.mem_cons.mp hs with rfl | hs
        · exact ⟨by decide, by decide, by decide, by decide⟩
        rcases List.mem_cons.mp hs with rfl | hs
        · exact all_digit_seg_ok hdsne hds
        rcases List.mem_cons.mp hs with rfl | hs
        · exact ⟨by decide, by decide, by decide, by decide⟩
        · rcases List.mem_singleton.mp hs with rfl
          exact hidxseg)
    have hnone1 : cfTryContest
        (str "/gym/" ++ (natToChars cid.toNat ++ (str "/problem/" ++ idx))) = none := rfl
    have hnone2 : cfTryProblemset
        (str "/gym/" ++ (natToChars cid.toNat ++ (str "/problem/" ++ idx))) = none := rfl
    have hm1 : matchLead (str "/gym/")
        (str "/gym/" ++ (natToChars cid.toNat ++ (str "/problem/" ++ idx)))
        = some (natToChars cid.toNat ++ (str "/problem/" ++ idx)) := matchLead_append _ _
    have htd : takeDigitsThen (str "/problem/")
        (natToChars cid.toNat ++ (str "/problem/" ++ idx))
        = some (charsToNat (natToChars cid.toNat), idx) :=
      takeDigitsThen_eval hds hdsne (by decide)
    have htry : cfTryGym
        (str "/gym/" ++ (natToChars cid.toNat ++ (str "/problem/" ++ idx)))
        = some (CodeforcesProblem.make (Int.ofNat (charsToNat (natToChars cid.toNat)))
            (normIndex idx) (some CFKind.gym) none none none) := by
      unfold cfTryGym
      rw [hm1, Option.some_bind, htd, Option.some_bind, hmi]
      rfl
    simp [CodeforcesProblem.from_url, hup, hnorm, hnone1, hnone2, htry, hni, hparse,
      hofNat, schemeOk, CodeforcesProblem.make]
    exact ⟨by decide, hcid2⟩
  | edu =>
    obtain ⟨c0, l0, s0, rfl, rfl, rfl⟩ := hedu rfl
    simp only [CodeforcesProblem.get_url, hint, optIntToChars_ofNat, List.append_assoc]
    show CodeforcesProblem.from_url
        (str "https" ++ ':' :: '/' :: '/'
          :: (str "codeforces.com"
            ++ (str "/edu/course/"
              ++ (natToChars c0
                ++ (str "/lesson/"
                  ++ (natToChars l0
                    ++ ('/' :: natToChars s0
                      ++ (str "/practice/contest/"
                        ++ (natToChars cid.toNat ++ (str "/problem/" ++ idx))))))))))
      = some ⟨cid, idx, CFKind.edu, some (Int.ofNat c0), some (Int.ofNat l0),
          some (Int.ofNat s0)⟩
    have hc0 := natToChars_all_digit c0
    have hl0 := natToChars_all_digit l0
    have hs0 := natToChars_all_digit s0
    have hnof : ∀ x : Char, x = '#' ∨ x = '?' →
        x ∉ (str "/edu/course/"
          ++ (natToChars c0
            ++ (str "/lesson/"
              ++ (natToChars l0
                ++ ('/' :: natToChars s0
                  ++ (str "/practice/contest/"
                    ++ (natToChars cid.toNat ++ (str "/problem/" ++ idx)))))))) := by
      rintro x hx hm
      rcases List.mem_append.mp hm with hm | hm
      · rcases hx with rfl | rfl <;> exact absurd hm (by decide)
      rcases List.mem_append.mp hm with hm | hm
      · rcases hx with rfl | rfl
        · exact (digit_not_special (hc0 _ hm)).2.1 rfl
        · exact (digit_not_special (hc0 _ hm)).2.2.1 rfl
      rcases List.mem_append.mp hm with hm | hm
      · rcases hx with rfl | rfl <;> exact absurd hm (by decide)
      rcases List.mem_append.mp hm with hm | hm
      · rcases hx with rfl | rfl
        · exact (digit_not_special (hl0 _ hm)).2.1 rfl
        · exact (digit_not_special (hl0 _ hm)).2.2.1 rfl
      rcases List.mem_append.mp hm with hm | hm
      · rcases List.mem_cons.mp hm with hm | hm
        · rcases hx with rfl | rfl <;> exact absurd hm (by decide)
        · rcases hx with rfl | rfl
          · exact (digit_not_special (hs0 _ hm)).2.1 rfl
          · exact (digit_not_special (hs0 _ hm)).2.2.1 rfl
      rcases List.mem_append.mp hm with hm | hm
      · rcases hx with rfl | rfl <;> exact absurd hm (by decide)
      rcases List.mem_append.mp hm with hm | hm
      · rcases hx with rfl | rfl
        · exact (digit_not_special (hds _ hm)).2.1 rfl
        · exact (digit_not_special (hds _ hm)).2.2.1 rfl
      rcases List.mem_append.mp hm with hm | hm
      · rcases hx with rfl | rfl <;> exact absurd hm (by decide)
      · rcases hx with rfl | rfl
        · exact (alphanum_not_special (han _ hm)).2.2.1 (by decide)
        · exact (alphanum_not_special (han _ hm)).2.2.2 (by decide)
    have hup : urlparse (str "https" ++ ':' :: '/' :: '/'
        :: (str "codeforces.com"
          ++ (str "/edu/course/"
            ++ (natToChars c0
              ++ (str "/lesson/"
                ++ (natToChars l0
                  ++ ('/' :: natToChars s0
                    ++ (str "/practice/contest/"
                      ++ (natToChars cid.toNat ++ (str "/problem/" ++ idx))))))))))
        = ⟨str "https", str "codeforces.com",
            str "/edu/course/"
              ++ (natToChars c0
                ++ (str "/lesson/"
                  ++ (natToChars l0
                    ++ ('/' :: natToChars s0
                      ++ (str "/practice/contest/"
                        ++ (natToChars cid.toNat ++ (str "/problem/" ++ idx))))))),
            [], []⟩ :=
      urlparse_build (splitScheme_https _)
        (splitNetloc_host (by decide)
          (Or.inr ⟨'/', str "edu/course/"
            ++ (natToChars c0
              ++ (str "/lesson/"
                ++ (natToChars l0
                  ++ ('/' :: natToChars s0
                    ++ (str "/practice/contest/"
                      ++ (natToChars cid.toNat ++ (str "/problem/" ++ idx))))))),
            rfl, by decide⟩))
        (Or.inr ⟨breakAt_not_mem (hnof '#' (Or.inl rfl)), rfl⟩)
        (Or.inr ⟨breakAt_not_mem (hnof '?' (Or.inr rfl)), rfl⟩)
    have hnorm : normpath
        (str "/edu/course/"
          ++ (natToChars c0
            ++ (str "/lesson/"
              ++ (natToChars l0
                ++ ('/' :: natToChars s0
                  ++ (str "/practice/contest/"
                    ++ (natToChars cid.toNat ++ (str "/problem/" ++ idx))))))))
        = str "/edu/course/"
          ++ (natToChars c0
            ++ (str "/lesson/"
              ++ (natToChars l0
                ++ ('/' :: natToChars s0
                  ++ (str "/practice/contest/"
                    ++ (natToChars cid.toNat ++ (str "/problem/" ++ idx))))))) :=
      normpath_normal [str "edu", str "course", natToChars c0, str "lesson",
        natToChars l0, natToChars s0, str "practice", str "contest",
        natToChars cid.toNat, str "problem", idx] (by simp) (by
        intro s hs
        rcases List.mem_cons.mp hs with rfl | hs
        · exact ⟨by decide, by decide, by decide, by decide⟩
        rcases List.mem_cons.mp hs with rfl | hs
        · exact ⟨by decide, by decide, by decide, by decide⟩
        rcases List.mem_cons.mp hs with rfl | hs
        · exact all_digit_seg_ok (natToChars_ne_nil _) hc0
        rcases List.mem_cons.mp hs with rfl | hs
        · exact ⟨by decide, by decide, by decide, by decide⟩
        rcases List.mem_cons.mp hs with rfl | hs
        · exact all_digit_seg_ok (natToChars_ne_nil _) hl0
        rcases List.mem_cons.mp hs with rfl | hs
        · exact all_digit_seg_ok (natToChars_ne_nil _) hs0
        rcases List.mem_cons.mp hs with rfl | hs
        · exact ⟨by decide, by decide, by decide, by decide⟩
        rcases List.mem_cons.mp hs with rfl | hs
        · exact ⟨by decide, by decide, by decide, by decide⟩
        rcases List.mem_cons.mp hs with rfl | hs
        · exact all_digit_seg_ok hdsne hds
        rcases List.mem_cons.mp hs with rfl | hs
        · exact ⟨by decide, by decide, by decide, by decide⟩
        · rcases List.mem_singleton.mp hs with rfl
          exact hidxseg)
    have hnone1 : cfTryContest
        (str "/edu/course/"
          ++ (natToChars c0
            ++ (str "/lesson/"
              ++ (natToChars l0
                ++ ('/' :: natToChars s0
                  ++ (str "/practice/contest/"
                    ++ (natToChars cid.toNat ++ (str "/problem/" ++ idx)))))))) = none := rfl
    have hnone2 : cfTryProblemset
        (str "/edu/course/"
          ++ (natToChars c0
            ++ (str "/lesson/"
              ++ (natToChars l0
                ++ ('/' :: natToChars s0
                  ++ (str "/practice/contest/"
                    ++ (natToChars cid.toNat ++ (str "/problem/" ++ idx)))))))) = none := rfl
    have hnone3 : cfTryGym
        (str "/edu/course/"
          ++ (natToChars c0
            ++ (str "/lesson/"
              ++ (natToChars l0
                ++ ('/' :: natToChars s0
                  ++ (str "/practice/contest/"
                    ++ (natToChars cid.toNat ++ (str "/problem/" ++ idx)))))))) = none := rfl
    have hm1 : matchLead (str "/edu/course/")
        (str "/edu/course/"
          ++ (natToChars c0
            ++ (str "/lesson/"
              ++ (natToChars l0
                ++ ('/' :: natToChars s0
                  ++ (str "/practice/contest/"
                    ++ (natToChars cid.toNat ++ (str "/problem/" ++ idx))))))))
        = some (natToChars c0
            ++ (str "/lesson/"
              ++ (natToChars l0
                ++ ('/' :: natToChars s0
                  ++ (str "/practice/contest/"
                    ++ (natToChars cid.toNat ++ (str "/problem/" ++ idx))))))) :=
      matchLead_append _ _
    have htd1 : takeDigitsStarThen (str "/lesson/")
        (natToChars c0
          ++ (str "/lesson/"
            ++ (natToChars l0
              ++ ('/' :: natToChars s0
                ++ (str "/practice/contest/"
                  ++ (natToChars cid.toNat ++ (str "/problem/" ++ idx)))))))
        = some (some (charsToNat (natToChars c0)),
            natToChars l0
              ++ ('/' :: natToChars s0
                ++ (str "/practice/contest/"
                  ++ (natToChars cid.toNat ++ (str "/problem/" ++ idx))))) :=
      takeDigitsStar_eval hc0 (natToChars_ne_nil _) (by decide)
    have htd2 : takeDigitsStarThen ['/']
        (natToChars l0
          ++ ('/' :: natToChars s0
            ++ (str "/practice/contest/"
              ++ (natToChars cid.toNat ++ (str "/problem/" ++ idx)))))
        = some (some (charsToNat (natToChars l0)),
            natToChars s0
              ++ (str "/practice/contest/"
                ++ (natToChars cid.toNat ++ (str "/problem/" ++ idx)))) :=
      takeDigitsStar_eval hl0 (natToChars_ne_nil _) (by decide)
    have htd3 : takeDigitsStarThen (str "/practice/contest/")
        (natToChars s0
          ++ (str "/practice/contest/"
            ++ (natToChars cid.toNat ++ (str "/problem/" ++ idx))))
        = some (some (charsToNat (natToChars s0)),
            natToChars cid.toNat ++ (str "/problem/" ++ idx)) :=
      takeDigitsStar_eval hs0 (natToChars_ne_nil _) (by decide)
    have htd4 : takeDigitsStarThen (str "/problem/")
        (natToChars cid.toNat ++ (str "/problem/" ++ idx))
        = some (some (charsToNat (natToChars cid.toNat)), idx) :=
      takeDigitsStar_eval hds hdsne (by decide)
    have htry : cfTryEdu
        (str "/edu/course/"
          ++ (natToChars c0
            ++ (str "/lesson/"
              ++ (natToChars l0
                ++ ('/' :: natToChars s0
                  ++ (str "/practice/contest/"
                    ++ (natToChars cid.toNat ++ (str "/problem/" ++ idx))))))))
        = some (CodeforcesProblem.make (Int.ofNat (charsToNat (natToChars cid.toNat)))
            (normIndex idx) (some CFKind.edu)
            (some (Int.ofNat (charsToNat (natToChars c0))))
            (some (Int.ofNat (charsToNat (natToChars l0))))
            (some (Int.ofNat (charsToNat (natToChars s0))))) := by
      unfold cfTryEdu
      rw [hm1, Option.some_bind, htd1, Option.some_bind, htd2, Option.some_bind,
        htd3, Option.some_bind, htd4, Option.some_bind, hmi]
      rfl
    simp only [List.cons_append] at hup hnorm hnone1 hnone2 hnone3 htry
    simp [CodeforcesProblem.from_url, hup, hnorm, hnone1, hnone2, hnone3, htry, hni,
      hparse, hofNat, schemeOk, CodeforcesProblem.make, charsToNat_natToChars]
    exact ⟨by decide, hcid2⟩

/-- C1: the round trip fails on a constructor-valid identity. The
`CodeforcesProblem` constructor accepts any index of one uppercase letter
optionally followed by a digit, so `A0` is a valid identity; but
`from_url` only recognises a trailing digit between 1 and 9, so the
canonical URL of the identity with index `A0` resolves to nothing at
all, not to an equal identity. -/
theorem c1_counterexample :
    indexOk (str "A0")
      ∧ CodeforcesProblem.from_url
          ((CodeforcesProblem.make 1000 (str "A0") none none none none).get_url)
        = none :=
  ⟨by decide, by decide⟩

/-- C1 (amended): `from_url` composed with `get_url` reproduces an equal
identity for every service handle and for every problem / contest handle
whose fields satisfy the constructor preconditions, strengthened where
the URL grammar demands it: the anarchygolf problem id is nonempty and
free of `#`; the AOJ problem id is nonempty and free of the
query-reserved characters `#`, `&`, `+`, `%`; the arena id and alphabet
carry no `/` and the alphabet is an uppercase letter; the HackerRank
slugs are nonempty and made of slug characters; the Codeforces ids are
nonnegative; and the Codeforces problem index must be an uppercase
letter optionally followed by a digit between 1 and 9 (a trailing `0`,
though accepted by the constructor, breaks the round trip as the
counterexample shows), with the edu position fields present exactly on
an edu problem. -/
theorem c1_roundtrip_amended
    (agPid : Str) (h1 : agPid ≠ []) (h2 : '#' ∉ agPid)
    (aojPid : Str) (h3 : aojPid ≠ []) (h4 : '#' ∉ aojPid) (h5 : '&' ∉ aojPid)
    (h6 : '+' ∉ aojPid) (h7 : '%' ∉ aojPid)
    (arenaId alphabet : Str) (h8 : '/' ∉ arenaId) (h9 : '/' ∉ alphabet)
    (h10 : alphabetOk alphabet)
    (cs ch : Str) (h11 : cs ≠ []) (h12 : ∀ c ∈ cs, slugChar c = true)
    (h13 : ch ≠ []) (h14 : ∀ c ∈ ch, slugChar c = true)
    (cid : Int) (k : CFContestKind) (h15 : 0 ≤ cid)
    (p : CodeforcesProblem) (h16 : 0 ≤ p.contest_id) (h17 : indexOk p.index)
    (h18 : indexTailOk p.index)
    (h19 : p.kind = CFKind.edu → ∃ c0 l0 s0 : Nat,
      p.course = some (Int.ofNat c0) ∧ p.lesson = some (Int.ofNat l0)
        ∧ p.step = some (Int.ofNat s0))
    (h20 : p.kind ≠ CFKind.edu → p.course = none ∧ p.lesson = none ∧ p.step = none) :
    AnarchyGolfService.from_url (AnarchyGolfService.get_url ⟨⟩) = some ⟨⟩
    ∧ CodeforcesService.from_url (CodeforcesService.get_url ⟨⟩) = some ⟨⟩
    ∧ HackerRankService.from_url (HackerRankService.get_url ⟨⟩) = some ⟨⟩
    ∧ AOJService.from_url (AOJService.get_url ⟨⟩) = some ⟨⟩
    ∧ AnarchyGolfProblem.from_url (AnarchyGolfProblem.get_url ⟨agPid⟩) = some ⟨agPid⟩
    ∧ AOJProblem.from_url (AOJProblem.get_url ⟨aojPid⟩) = some ⟨aojPid⟩
    ∧ AOJArenaProblem.from_url
        (AOJArenaProblem.get_url (AOJArenaProblem.make arenaId alphabet))
      = some (AOJArenaProblem.make arenaId alphabet)
    ∧ HackerRankProblem.from_url (HackerRankProblem.get_url ⟨cs, ch⟩) = some ⟨cs, ch⟩
    ∧ CodeforcesContest.from_url (CodeforcesContest.get_url ⟨cid, k⟩) = some ⟨cid, k⟩
    ∧ CodeforcesProblem.from_url p.get_url = some p :=
  ⟨rt_anarchy_service, rt_cf_service, rt_hr_service, rt_aoj_service,
   rt_anarchy_problem h1 h2, rt_aoj_problem h3 h4 h5 h6 h7,
   rt_aoj_arena h8 h9 h10, rt_hackerrank h11 h12 h13 h14,
   rt_cf_contest k h15, rt_cf_problem p h16 h17 h18 h19 h20⟩

theorem c1_roundtrip_amended_witness :
    AnarchyGolfService.from_url (AnarchyGolfService.get_url ⟨⟩) = some ⟨⟩
    ∧ CodeforcesService.from_url (CodeforcesService.get_url ⟨⟩) = some ⟨⟩
    ∧ HackerRankService.from_url (HackerRankService.get_url ⟨⟩) = some ⟨⟩
    ∧ AOJService.from_url (AOJService.get_url ⟨⟩) = some ⟨⟩
    ∧ AnarchyGolfProblem.from_url (AnarchyGolfProblem.get_url ⟨str "hello"⟩)
      = some ⟨str "hello"⟩
    ∧ AOJProblem.from_url (AOJProblem.get_url ⟨str "DSL_1_A"⟩) = some ⟨str "DSL_1_A"⟩
    ∧ AOJArenaProblem.from_url
        (AOJArenaProblem.get_url (AOJArenaProblem.make (str "RitsCamp19Day2") (str "A")))
      = some (AOJArenaProblem.make (str "RitsCamp19Day2") (str "A"))
    ∧ HackerRankProblem.from_url
        (HackerRankProblem.get_url ⟨str "hourrank-1", str "beautiful-array"⟩)
      = some ⟨str "hourrank-1", str "beautiful-array"⟩
    ∧ CodeforcesContest.from_url (CodeforcesContest.get_url ⟨1000, CFContestKind.contest⟩)
      = some ⟨1000, CFContestKind.contest⟩
    ∧ CodeforcesProblem.from_url
        (CodeforcesProblem.mk 1000 (str "A") CFKind.contest none none none).get_url
      = some (CodeforcesProblem.mk 1000 (str "A") CFKind.contest none none none) :=
  c1_roundtrip_amended (str "hello") (by decide) (by decide)
    (str "DSL_1_A") (by decide) (by decide) (by decide) (by decide) (by decide)
    (str "RitsCamp19Day2") (str "A") (by decide) (by decide)
    (by unfold alphabetOk; decide)
    (str "hourrank-1") (str "beautiful-array") (by decide) (by decide) (by decide)
    (by decide) 1000 CFContestKind.contest (by decide)
    (CodeforcesProblem.mk 1000 (str "A") CFKind.contest none none none)
    (by decide) (by decide) (by decide)
    (fun h => nomatch h) (fun _ => ⟨rfl, rfl, rfl⟩)
